import Mathlib

/-!
Verification development for the signal-fusion / risk-sizing engine of the
AndroidHealthTracker repository (src/utils/indicators.py, signal_generator.py,
risk_manager.py, real_time_analyzer.py, alert_manager.py).

The pandas/numpy float columns are modelled by the type `PF`: an exact
rational (`PF.num`), IEEE NaN (`PF.nan`), or a signed infinity (`PF.inf`).
Float rounding is idealized to exact rational arithmetic; NaN and infinity
propagation follow IEEE-754 semantics, which is what numpy implements.
A pandas column is a `List PF`, aligned with the input rows.
-/

namespace AHT

/-- A pandas float cell: NaN, ±infinity (`inf true` is `+∞`), or a finite value. -/
inductive PF where
  | nan : PF
  | inf : Bool → PF
  | num : Rat → PF
  deriving DecidableEq, Repr

/-- IEEE addition. -/
def pfAdd : PF → PF → PF
  | PF.nan, _ => PF.nan
  | _, PF.nan => PF.nan
  | PF.inf s, PF.inf t => if s = t then PF.inf s else PF.nan
  | PF.inf s, PF.num _ => PF.inf s
  | PF.num _, PF.inf t => PF.inf t
  | PF.num a, PF.num b => PF.num (a + b)

/-- IEEE negation. -/
def pfNeg : PF → PF
  | PF.nan => PF.nan
  | PF.inf s => PF.inf (!s)
  | PF.num a => PF.num (-a)

/-- IEEE subtraction. -/
def pfSub (a b : PF) : PF := pfAdd a (pfNeg b)

/-- IEEE multiplication (`∞ × 0 = NaN`). -/
def pfMul : PF → PF → PF
  | PF.nan, _ => PF.nan
  | _, PF.nan => PF.nan
  | PF.inf s, PF.inf t => PF.inf (s = t)
  | PF.inf s, PF.num b =>
      if b = 0 then PF.nan else if 0 < b then PF.inf s else PF.inf (!s)
  | PF.num a, PF.inf t =>
      if a = 0 then PF.nan else if 0 < a then PF.inf t else PF.inf (!t)
  | PF.num a, PF.num b => PF.num (a * b)

/-- IEEE division: `x/0` is `±∞` for `x ≠ 0` and NaN for `x = 0`
(numpy emits a warning but produces exactly these values). -/
def pfDiv : PF → PF → PF
  | PF.nan, _ => PF.nan
  | _, PF.nan => PF.nan
  | PF.inf _, PF.inf _ => PF.nan
  | PF.inf s, PF.num b => if 0 ≤ b then PF.inf s else PF.inf (!s)
  | PF.num _, PF.inf _ => PF.num 0
  | PF.num a, PF.num b =>
      if b = 0 then
        if a = 0 then PF.nan else if 0 < a then PF.inf true else PF.inf false
      else PF.num (a / b)

/-- IEEE `<`: any comparison with NaN is false. -/
def pfLt : PF → PF → Bool
  | PF.nan, _ => false
  | _, PF.nan => false
  | PF.inf s, PF.inf t => !s && t
  | PF.inf s, PF.num _ => !s
  | PF.num _, PF.inf t => t
  | PF.num a, PF.num b => a < b

/-- IEEE `≤`: any comparison with NaN is false. -/
def pfLe : PF → PF → Bool
  | PF.nan, _ => false
  | _, PF.nan => false
  | PF.inf s, PF.inf t => s = t ∨ (!s && t)
  | PF.inf s, PF.num _ => !s
  | PF.num _, PF.inf t => t
  | PF.num a, PF.num b => a ≤ b

/-- IEEE absolute value. -/
def pfAbs : PF → PF
  | PF.nan => PF.nan
  | PF.inf _ => PF.inf true
  | PF.num a => PF.num |a|

/-- `Series.fillna(0)` on one cell. -/
def fill0 : PF → PF
  | PF.nan => PF.num 0
  | x => x

/-- NaN-skipping binary max, as in pandas `max`/`DataFrame.max(axis=1)`
with the default `skipna=True`. -/
def pfMaxSkip : PF → PF → PF
  | PF.nan, y => y
  | x, PF.nan => x
  | x, y => if pfLt x y then y else x

/-- NaN-skipping binary min. -/
def pfMinSkip : PF → PF → PF
  | PF.nan, y => y
  | x, PF.nan => x
  | x, y => if pfLt y x then y else x

/-- Sum of a window, NaN-propagating (pandas rolling aggregations with the
default `min_periods = window` see no NaN only when the window is full;
a NaN inside the window poisons the aggregate). -/
def pfSum (l : List PF) : PF := l.foldl pfAdd (PF.num 0)

/-- pandas `Series.min()` over a whole column: skips NaN, NaN if empty. -/
def seriesMin (l : List PF) : PF := l.foldl pfMinSkip PF.nan

/-- pandas `Series.max()` over a whole column: skips NaN, NaN if empty. -/
def seriesMax (l : List PF) : PF := l.foldl pfMaxSkip PF.nan

/-- Cell access in a column; out-of-range reads (never exercised by the
embedded code on aligned frames) give NaN. -/
def colAt (xs : List PF) (i : Nat) : PF := xs.getD i PF.nan

/-- The cell one row above row `i` (pandas `shift(1)`): NaN at row 0. -/
def prevAt (xs : List PF) (i : Nat) : PF :=
  if i = 0 then PF.nan else colAt xs (i - 1)

/-- A per-row series operator: row `i` of the output is a function of the
input rows `0..i` only.  All pandas window/diff operators used by the
engine are of this shape. -/
def buildSeries (g : List PF → PF) (xs : List PF) : List PF :=
  (List.range xs.length).map (fun i => g (xs.take (i + 1)))

/-- `Series.rolling(window=w).mean()`: NaN until the window is full, then the
mean of the trailing `w` cells. -/
def rollingMean (w : Nat) (xs : List PF) : List PF :=
  buildSeries
    (fun pre =>
      if pre.length < w then PF.nan
      else pfDiv (pfSum (pre.drop (pre.length - w))) (PF.num w))
    xs

/-- `Series.diff()`: NaN at row 0, else the difference with the previous row. -/
def pdDiff (xs : List PF) : List PF :=
  buildSeries
    (fun pre =>
      if pre.length < 2 then PF.nan
      else pfSub (colAt pre (pre.length - 1)) (colAt pre (pre.length - 2)))
    xs

/-- `Series.ewm(span, adjust=False).mean()` recursion after the seed row. -/
def ewmaGo (a : Rat) (prev : PF) : List PF → List PF
  | [] => []
  | x :: xs =>
      let y := pfAdd (pfMul (PF.num (1 - a)) prev) (pfMul (PF.num a) x)
      y :: ewmaGo a y xs

/-- `Series.ewm(span, adjust=False).mean()`: `y₀ = x₀`,
`yᵢ = (1−α)·yᵢ₋₁ + α·xᵢ`. -/
def ewma (a : Rat) : List PF → List PF
  | [] => []
  | x :: xs => x :: ewmaGo a x xs

/-- `α = 2/(span+1)`, the smoothing factor pandas derives from `span`. -/
def spanAlpha (s : Nat) : Rat := 2 / (s + 1)

/-- Sample variance (`ddof = 1`, the pandas default) of a window; a window of
size 1 produces `0/0 = NaN`, exactly as `rolling(1).std()` does. -/
def sampleVar (win : List PF) : PF :=
  let m := pfDiv (pfSum win) (PF.num win.length)
  pfDiv (pfSum (win.map (fun x => pfMul (pfSub x m) (pfSub x m))))
    (PF.num (win.length - 1 : Nat))

/-- Square root of a cell.  Exact square roots of rationals are in general
irrational, so the development is parametric in the finite-value square root
`sqrtF` (the float `sqrt` used by pandas); every theorem below either holds
for all `sqrtF` or evaluates inputs on which `sqrtF` is never reached. -/
def pfSqrt (sqrtF : Rat → Rat) : PF → PF
  | PF.nan => PF.nan
  | PF.inf s => if s then PF.inf true else PF.nan
  | PF.num q => if q < 0 then PF.nan else PF.num (sqrtF q)

/-- `Series.rolling(window=w).std()`: NaN until the window is full, then the
sample standard deviation of the trailing `w` cells. -/
def rollingStd (sqrtF : Rat → Rat) (w : Nat) (xs : List PF) : List PF :=
  buildSeries
    (fun pre =>
      if pre.length < w then PF.nan
      else pfSqrt sqrtF (sampleVar (pre.drop (pre.length - w))))
    xs

/-- The keyword parameters of `calculate_indicators`
(src/utils/indicators.py lines 4-6). -/
structure IndParams where
  short_ma : Nat
  long_ma : Nat
  rsi_period : Nat
  macd_fast : Nat
  macd_slow : Nat
  macd_sig : Nat
  bb_period : Nat
  bb_std : Rat
  deriving DecidableEq, Repr

/-- The DataFrame returned by `calculate_indicators`: the `Close` column plus
one field per added indicator column, all aligned with the input rows and
already passed through the final `fillna(0)` (indicators.py line 53).
When `short_ma = long_ma` the real DataFrame holds a single `MA_{n}` column
(the second assignment overwrites the first); both fields below then carry
that one column's values. -/
structure IndFrame where
  close : List PF
  maShort : List PF
  maLong : List PF
  rsi : List PF
  macd : List PF
  macdSignalLine : List PF
  macdHist : List PF
  bbMiddle : List PF
  bbStdCol : List PF
  bbUpper : List PF
  bbLower : List PF
  deriving Repr

/-- `gain = delta.where(delta > 0, 0).rolling(...)`'s input
(indicators.py line 33): NaN fails the comparison, so row 0 is 0, not NaN. -/
def rsiGain (delta : List PF) : List PF :=
  delta.map (fun x => if pfLt (PF.num 0) x then x else PF.num 0)

/-- `loss = (-delta.where(delta < 0, 0)).rolling(...)`'s input
(indicators.py line 34); again row 0 is `-0 = 0`. -/
def rsiLoss (delta : List PF) : List PF :=
  delta.map (fun x => pfNeg (if pfLt x (PF.num 0) then x else PF.num 0))

/-- The raw (pre-`fillna`) RSI column (indicators.py lines 32-37):
`rs = gain/loss`, `RSI = 100 - 100/(1 + rs)`. -/
def rsiCol (period : Nat) (c : List PF) : List PF :=
  let delta := pdDiff c
  let gainAvg := rollingMean period (rsiGain delta)
  let lossAvg := rollingMean period (rsiLoss delta)
  (List.zipWith pfDiv gainAvg lossAvg).map (fun r =>
    pfSub (PF.num 100) (pfDiv (PF.num 100) (pfAdd (PF.num 1) r)))

/-- The raw MACD line (indicators.py lines 40-42): fast EMA minus slow EMA. -/
def macdLine (fast slow : Nat) (c : List PF) : List PF :=
  List.zipWith pfSub (ewma (spanAlpha fast) c) (ewma (spanAlpha slow) c)

/-- The raw `MACD_signal` column (line 43): EMA of the MACD line. -/
def macdSignalCol (p : IndParams) (c : List PF) : List PF :=
  ewma (spanAlpha p.macd_sig) (macdLine p.macd_fast p.macd_slow c)

/-- The raw `MACD_hist` column (line 44). -/
def macdHistCol (p : IndParams) (c : List PF) : List PF :=
  List.zipWith pfSub (macdLine p.macd_fast p.macd_slow c) (macdSignalCol p c)

/-- `BB_std * bb_std`, the scaled band half-width (lines 49-50). -/
def bbStdScaled (sqrtF : Rat → Rat) (p : IndParams) (c : List PF) : List PF :=
  (rollingStd sqrtF p.bb_period c).map (fun s => pfMul s (PF.num p.bb_std))

/-- The raw `BB_upper` column (line 49). -/
def bbUpperCol (sqrtF : Rat → Rat) (p : IndParams) (c : List PF) : List PF :=
  List.zipWith pfAdd (rollingMean p.bb_period c) (bbStdScaled sqrtF p c)

/-- The raw `BB_lower` column (line 50). -/
def bbLowerCol (sqrtF : Rat → Rat) (p : IndParams) (c : List PF) : List PF :=
  List.zipWith pfSub (rollingMean p.bb_period c) (bbStdScaled sqrtF p c)

/-- `calculate_indicators` (src/utils/indicators.py lines 4-55), translated
column by column; the final `fillna(0)` (line 53) is applied to every
column, including `Close` (a no-op there, as input closes are finite). -/
def calculate_indicators (sqrtF : Rat → Rat) (p : IndParams)
    (closes : List Rat) : IndFrame :=
  let c := closes.map PF.num
  { close := c.map fill0
    maShort := (rollingMean p.short_ma c).map fill0
    maLong := (rollingMean p.long_ma c).map fill0
    rsi := (rsiCol p.rsi_period c).map fill0
    macd := (macdLine p.macd_fast p.macd_slow c).map fill0
    macdSignalLine := (macdSignalCol p c).map fill0
    macdHist := (macdHistCol p c).map fill0
    bbMiddle := (rollingMean p.bb_period c).map fill0
    bbStdCol := (rollingStd sqrtF p.bb_period c).map fill0
    bbUpper := (bbUpperCol sqrtF p c).map fill0
    bbLower := (bbLowerCol sqrtF p c).map fill0 }

/-- One OHLC price bar (the columns of the fetched DataFrame that the engine
reads; `Open`/`Volume` are never consumed by the embedded code paths). -/
structure Bar where
  high : Rat
  low : Rat
  close : Rat
  deriving DecidableEq, Repr

/-- `Series.shift(1)`: NaN at row 0, else the previous row's value. -/
def shift1 (xs : List PF) : List PF :=
  buildSeries
    (fun pre => if pre.length < 2 then PF.nan else colAt pre (pre.length - 2))
    xs

/-- The per-row true range (indicators.py lines 68-72).  Row 0 is
`High − Low` because the two shifted terms are NaN and
`DataFrame.max(axis=1)` skips NaN. -/
def trueRangeCol (df : List Bar) : List PF :=
  let highs := df.map (fun b => PF.num b.high)
  let lows := df.map (fun b => PF.num b.low)
  let closesShift := shift1 (df.map (fun b => PF.num b.close))
  let highLow := List.zipWith pfSub highs lows
  let highClose := List.zipWith (fun h c => pfAbs (pfSub h c)) highs closesShift
  let lowClose := List.zipWith (fun l c => pfAbs (pfSub l c)) lows closesShift
  List.zipWith pfMaxSkip (List.zipWith pfMaxSkip highLow highClose) lowClose

/-- `calculate_atr` (src/utils/indicators.py lines 57-75). -/
def calculate_atr (period : Nat) (df : List Bar) : List PF :=
  rollingMean period (trueRangeCol df)

/-- The dict returned by `calculate_support_resistance`. -/
structure SRDict where
  support : PF
  resistance : PF
  deriving DecidableEq, Repr

/-- `calculate_support_resistance` (src/utils/indicators.py lines 77-92):
min of the lows and max of the highs over the trailing `window` rows,
returned as the dict `{'support': ..., 'resistance': ...}`. -/
def calculate_support_resistance (window : Nat) (df : List Bar) : SRDict :=
  let recent := df.drop (df.length - window)
  { support := seriesMin (recent.map (fun b => PF.num b.low))
    resistance := seriesMax (recent.map (fun b => PF.num b.high)) }

/-- The int signal value a `.loc` rule pair writes into a per-indicator
column: the bearish assignment runs second in the source, so it wins when
both conditions hold. -/
def ruleVal (bull bear : Bool) : Int :=
  if bear then -1 else if bull then 1 else 0

/-- The columns `generate_signals` (src/utils/signal_generator.py lines 4-83)
adds to the frame.  `maCross` is `none` when fewer than two `MA_` columns
exist (the source only creates `ma_cross` in that case for `len(ma_cols) >= 2`,
which fails when `short_ma = long_ma` collapses the two MAs into one column). -/
structure SigFrame where
  maCross : Option (List Int)
  rsiSignalCol : List Int
  macdCross : List Int
  bbSignalCol : List Int
  signal : List Int
  deriving Repr

/-- `generate_signals` (src/utils/signal_generator.py lines 4-83).

The combined vote (lines 70-81) counts the sign of every column whose name
ends in `_signal` or `_cross`.  On the frame produced by
`calculate_indicators` that filter matches `ma_cross`, `rsi_signal`,
`macd_cross`, `bb_signal` — and also `MACD_signal`, the MACD signal-line EMA
itself, whose (filled) numeric value therefore votes by its sign.
`short_ma_col`/`long_ma_col` are chosen by numeric period
(`min`/`max(ma_cols, key=...)`), i.e. by the smaller/larger of the two
configured windows, not by the keyword name. -/
def generate_signals (p : IndParams) (rsiOverbought rsiOversold : Rat)
    (f : IndFrame) : SigFrame :=
  let n := f.close.length
  let maTwo : Bool := p.short_ma ≠ p.long_ma
  let sCol := if p.short_ma ≤ p.long_ma then f.maShort else f.maLong
  let lCol := if p.short_ma ≤ p.long_ma then f.maLong else f.maShort
  let maCrossCol : List Int :=
    (List.range n).map (fun i =>
      ruleVal
        (pfLt (colAt lCol i) (colAt sCol i) ∧ pfLe (prevAt sCol i) (prevAt lCol i))
        (pfLt (colAt sCol i) (colAt lCol i) ∧ pfLe (prevAt lCol i) (prevAt sCol i)))
  let rsiCol : List Int :=
    (List.range n).map (fun i =>
      ruleVal
        (pfLt (PF.num rsiOversold) (colAt f.rsi i) ∧
          pfLe (prevAt f.rsi i) (PF.num rsiOversold))
        (pfLt (colAt f.rsi i) (PF.num rsiOverbought) ∧
          pfLe (PF.num rsiOverbought) (prevAt f.rsi i)))
  let macdCrossCol : List Int :=
    (List.range n).map (fun i =>
      ruleVal
        (pfLt (colAt f.macdSignalLine i) (colAt f.macd i) ∧
          pfLe (prevAt f.macd i) (prevAt f.macdSignalLine i))
        (pfLt (colAt f.macd i) (colAt f.macdSignalLine i) ∧
          pfLe (prevAt f.macdSignalLine i) (prevAt f.macd i)))
  let bbCol : List Int :=
    (List.range n).map (fun i =>
      ruleVal
        (pfLt (prevAt f.close i) (prevAt f.bbLower i) ∧
          (pfLt (colAt f.bbLower i) (colAt f.close i) ∧
            pfLe (prevAt f.close i) (prevAt f.bbLower i)))
        (pfLt (prevAt f.bbUpper i) (prevAt f.close i) ∧
          (pfLt (colAt f.close i) (colAt f.bbUpper i) ∧
            pfLe (prevAt f.bbUpper i) (prevAt f.close i))))
  let signalCol : List Int :=
    (List.range n).map (fun i =>
      let voters : List PF :=
        PF.num (macdCrossCol.getD i 0 : Int) ::
        PF.num (rsiCol.getD i 0 : Int) ::
        PF.num (bbCol.getD i 0 : Int) ::
        colAt f.macdSignalLine i ::
        (if maTwo then [PF.num (maCrossCol.getD i 0 : Int)] else [])
      let pos := (voters.filter (fun v => pfLt (PF.num 0) v)).length
      let neg := (voters.filter (fun v => pfLt v (PF.num 0))).length
      if 2 ≤ neg then -1 else if 2 ≤ pos then 1 else 0)
  { maCross := if maTwo then some maCrossCol else none
    rsiSignalCol := rsiCol
    macdCross := macdCrossCol
    bbSignalCol := bbCol
    signal := signalCol }

/-- pandas `clip(0, 1)`: NaN passes through. -/
def pfClip01 : PF → PF
  | PF.nan => PF.nan
  | PF.inf s => if s then PF.num 1 else PF.num 0
  | PF.num q => PF.num (min 1 (max 0 q))

/-- `calculate_composite_score` (src/utils/signal_generator.py lines 85-182),
returning the `composite_score` column.  It runs on the already-filled frame;
`macd_hist` is recomputed there (line 125) from the filled columns, and the
normalizers `hist_max` / `max_diff` are global column maxima.  The guards
`hist_max != 0` / `max_diff != 0` are Python float `!=`, which is true for
NaN. -/
def calculate_composite_score (p : IndParams) (f : IndFrame) : List PF :=
  let n := f.close.length
  let rsiComp := f.rsi.map (fun r => pfSub (PF.num 1) (pfDiv r (PF.num 100)))
  let histCol := List.zipWith pfSub f.macd f.macdSignalLine
  let histMax := seriesMax (histCol.map pfAbs)
  let macdComp :=
    if histMax ≠ PF.num 0 then
      histCol.map (fun h =>
        pfClip01 (pfAdd (pfDiv h (pfMul (PF.num 2) histMax)) (PF.num (1/2))))
    else List.replicate n (PF.num (1/2))
  let maTwo : Bool := p.short_ma ≠ p.long_ma
  let sCol := if p.short_ma ≤ p.long_ma then f.maShort else f.maLong
  let lCol := if p.short_ma ≤ p.long_ma then f.maLong else f.maShort
  let maDiff := List.zipWith (fun s l => pfDiv (pfSub s l) l) sCol lCol
  let maDiffMax := seriesMax (maDiff.map pfAbs)
  let maComp :=
    if maTwo then
      if maDiffMax ≠ PF.num 0 then
        maDiff.map (fun d =>
          pfClip01 (pfAdd (pfDiv d (pfMul (PF.num 2) maDiffMax)) (PF.num (1/2))))
      else List.replicate n (PF.num (1/2))
    else List.replicate n (PF.num (1/2))
  let bbComp :=
    (List.range n).map (fun i =>
      let range := pfSub (colAt f.bbUpper i) (colAt f.bbLower i)
      let pos := pfDiv (pfSub (colAt f.close i) (colAt f.bbLower i)) range
      pfClip01 (pfSub (PF.num 1) pos))
  (List.range n).map (fun i =>
    pfClip01 (pfAdd
      (pfAdd (pfMul (PF.num (1/4)) (colAt rsiComp i))
        (pfMul (PF.num (1/4)) (colAt macdComp i)))
      (pfAdd (pfMul (PF.num (1/4)) (colAt maComp i))
        (pfMul (PF.num (1/4)) (colAt bbComp i)))))

/-- A Python runtime exception class (the engine can only hit `TypeError`,
raised by `np.isnan` on a `str`). -/
inductive PyErr where
  | typeError : PyErr
  deriving DecidableEq, Repr

/-- A Python value flowing into the support/resistance validation: either a
float, or one of the `str` dict keys produced by tuple-unpacking the dict
returned by `calculate_support_resistance`. -/
inductive PyVal where
  | float : PF → PyVal
  | strKey : PyVal
  deriving DecidableEq, Repr

/-- `np.isnan`: defined on floats, raises `TypeError` on a `str`. -/
def npIsnan : PyVal → Except PyErr Bool
  | PyVal.float v => Except.ok (v = PF.nan)
  | PyVal.strKey => Except.error PyErr.typeError

/-- Python `v <= q` for the validation guard; comparing a `str` against a
number would also raise `TypeError` (never reached: `np.isnan` raises first). -/
def pyLe (v : PyVal) (q : Rat) : Except PyErr Bool :=
  match v with
  | PyVal.float x => Except.ok (pfLe x (PF.num q))
  | PyVal.strKey => Except.error PyErr.typeError

/-- Extract the float payload; only applied to values that passed the
NaN guard, which are finite on every reachable path. -/
def pyValRat : PyVal → Rat
  | PyVal.float (PF.num q) => q
  | _ => 0

/-- Python 3 `round(x, 2)`: round half to even at the second decimal
(float-representation artifacts are idealized away). -/
def roundHalfEven (x : Rat) : Int :=
  let f : Int := ⌊x⌋
  let r : Rat := x - f
  if r < 1/2 then f else if 1/2 < r then f + 1 else if f % 2 = 0 then f else f + 1

/-- Round a price to 2 decimal places (risk_manager.py lines 85-87). -/
def round2 (x : Rat) : Rat := (roundHalfEven (x * 100) : Rat) / 100

/-- The dict returned by `calculate_risk_parameters`. -/
structure RiskParams where
  entry_price : Rat
  stop_loss : Rat
  take_profit : Rat
  deriving DecidableEq, Repr

/-- The fields of `latest_data` that `calculate_risk_parameters` reads:
`latest_data['Close']` and `latest_data.get('composite_score', 0.5)`. -/
structure LatestRow where
  close : Rat
  composite_score : Option PF
  deriving Repr

/-- `support, resistance = calculate_support_resistance(...)`
(risk_manager.py line 32): tuple-unpacking a Python dict iterates its KEYS,
so both targets are bound to the `str` keys, not to the price levels. -/
def SRDict.unpack (_ : SRDict) : PyVal × PyVal := (PyVal.strKey, PyVal.strKey)

/-- The bullish candidate stop (risk_manager.py line 51):
`max(support * 0.99, current_price - 2 * latest_atr)`. -/
def candStopBull (support currentPrice latestATR : Rat) : Rat :=
  max (support * (99/100)) (currentPrice - 2 * latestATR)

/-- The bearish candidate stop (risk_manager.py line 62):
`min(resistance * 1.01, current_price + 2 * latest_atr)`. -/
def candStopBear (resistance currentPrice latestATR : Rat) : Rat :=
  min (resistance * (101/100)) (currentPrice + 2 * latestATR)

/-- Validation of one support/resistance level (risk_manager.py lines 35-38):
`if np.isnan(v) or v <= 0: v = fallback` — the `or` short-circuits, so
`np.isnan` runs (and can raise) before the comparison. -/
def validateLevel (v : PyVal) (fallback : Rat) : Except PyErr Rat :=
  match npIsnan v with
  | Except.error e => Except.error e
  | Except.ok isN =>
      match (if isN then Except.ok true else pyLe v 0) with
      | Except.error e => Except.error e
      | Except.ok bad => Except.ok (if bad then fallback else pyValRat v)

/-- Body of `calculate_risk_parameters` from the support/resistance
validation on (risk_manager.py lines 25-93).  The initial defaults of lines
41-43 are dead: every bias branch reassigns all three outputs. -/
def riskCore (currentPrice : Rat) (score : PF) (latestATR : Rat)
    (supportV resistanceV : PyVal) (riskPct : Rat) : Except PyErr RiskParams :=
  let isBullish := pfLt (PF.num (3/5)) score
  let isBearish := pfLt score (PF.num (2/5))
  match validateLevel supportV (currentPrice * (95/100)) with
  | Except.error e => Except.error e
  | Except.ok support =>
  match validateLevel resistanceV (currentPrice * (105/100)) with
  | Except.error e => Except.error e
  | Except.ok resistance =>
  let entry := currentPrice
  let (stop0, tp) :=
    if isBullish then
      let st := candStopBull support currentPrice latestATR
      (st, entry + (entry - st) * 2)
    else if isBearish then
      let st := candStopBear resistance currentPrice latestATR
      (st, entry - (st - entry) * 2)
    else
      (currentPrice - latestATR, currentPrice + latestATR)
  let maxRisk := currentPrice * (riskPct / 100)
  let stop :=
    if isBullish ∧ maxRisk < entry - stop0 then entry - maxRisk
    else if isBearish ∧ maxRisk < stop0 - entry then entry + maxRisk
    else stop0
  Except.ok ⟨round2 entry, round2 stop, round2 tp⟩

/-- `atr.iloc[-1] if not atr.empty and not np.isnan(atr.iloc[-1]) else
current_price * 0.01` (risk_manager.py line 22).  ATR cells are only ever
finite or NaN, so matching on `PF.num` is exhaustive on reachable values. -/
def latestATRFrom (currentPrice : Rat) (hist : List Bar) : Rat :=
  match (calculate_atr 14 hist).getLast? with
  | some (PF.num q) => q
  | _ => currentPrice * (1/100)

/-- `calculate_risk_parameters` (src/utils/risk_manager.py lines 5-93),
exactly as written: the support/resistance dict is tuple-unpacked into its
keys, so the validation applies `np.isnan` to a `str`. -/
def calculate_risk_parameters (latest : LatestRow) (hist : List Bar)
    (riskPct : Rat) : Except PyErr RiskParams :=
  let currentPrice := latest.close
  let latestATR := latestATRFrom currentPrice hist
  let score := latest.composite_score.getD (PF.num (1/2))
  let sr := calculate_support_resistance 10 hist
  let (sV, rV) := sr.unpack
  riskCore currentPrice score latestATR sV rV riskPct

/-- The evident intended reading of risk_manager.py line 32 — the
support/resistance levels read from the dict by key — used to examine what
the downstream logic of lines 34-93 would return.  Identical to
`calculate_risk_parameters` except for the unpacking. -/
def calculate_risk_parameters_keyed (latest : LatestRow) (hist : List Bar)
    (riskPct : Rat) : Except PyErr RiskParams :=
  let currentPrice := latest.close
  let latestATR := latestATRFrom currentPrice hist
  let score := latest.composite_score.getD (PF.num (1/2))
  let sr := calculate_support_resistance 10 hist
  riskCore currentPrice score latestATR (PyVal.float sr.support)
    (PyVal.float sr.resistance) riskPct

/-- The signal types `_determine_real_time_signal` can return. -/
inductive SigType where
  | BUY | SELL | SHORT | COVER | HOLD | WAIT | UNKNOWN
  deriving DecidableEq, Repr

/-- `position_type` of a held position (`'LONG'` is the `.get` default). -/
inductive PosType where
  | LONG | SHORT
  deriving DecidableEq, Repr

/-- The row fields `_determine_real_time_signal` reads from the frame.
`maS`/`maL` are the values of the smaller-period and larger-period MA
columns (the source re-derives them per call with `min`/`max` over the
parsed column names). -/
structure SRow where
  close : PF
  maS : PF
  maL : PF
  macd : PF
  macdSig : PF
  score : PF
  signal : Int
  deriving DecidableEq, Repr

/-- The dict `_determine_real_time_signal` returns; the human-readable
`desc` string and wall-clock `time` stamp are presentation-only and not
modelled.  The `UNKNOWN` result carries no `score` key. -/
structure SigResult where
  stype : SigType
  strength : PF
  scoreOut : Option PF
  deriving DecidableEq, Repr

/-- Placeholder row behind the nonempty guard (never read). -/
def dfltRow : SRow :=
  ⟨PF.num 0, PF.num 0, PF.num 0, PF.num 0, PF.num 0, PF.num 0, 0⟩

/-- `latest = df.iloc[-1]` (real_time_analyzer.py line 114). -/
def latestRowOf (df : List SRow) : SRow := df.getLast?.getD dfltRow

/-- `prev = df.iloc[-2] if len(df) > 1 else latest` (line 117). -/
def prevRowOf (df : List SRow) : SRow :=
  if 1 < df.length then (df.drop (df.length - 2)).headD dfltRow
  else latestRowOf df

/-- `macd_bullish_cross` (line 129). -/
def macdBullOf (df : List SRow) : Bool :=
  pfLt (latestRowOf df).macdSig (latestRowOf df).macd &&
  pfLe (prevRowOf df).macd (prevRowOf df).macdSig

/-- `macd_bearish_cross` (line 130). -/
def macdBearOf (df : List SRow) : Bool :=
  pfLt (latestRowOf df).macd (latestRowOf df).macdSig &&
  pfLe (prevRowOf df).macdSig (prevRowOf df).macd

/-- `ma_bullish_cross` (lines 138, 141): `False` without two MA columns. -/
def maBullOf (maTwo : Bool) (df : List SRow) : Bool :=
  maTwo && (pfLt (latestRowOf df).maL (latestRowOf df).maS &&
    pfLe (prevRowOf df).maS (prevRowOf df).maL)

/-- `ma_bearish_cross` (lines 139, 142). -/
def maBearOf (maTwo : Bool) (df : List SRow) : Bool :=
  maTwo && (pfLt (latestRowOf df).maS (latestRowOf df).maL &&
    pfLe (prevRowOf df).maL (prevRowOf df).maS)

/-- The condition of real_time_analyzer.py line 173:
`score > 0.6 or macd_bullish_cross or ma_bullish_cross` — a DISJUNCTION. -/
def bullTriggerOf (maTwo : Bool) (df : List SRow) : Bool :=
  pfLt (PF.num (3/5)) (latestRowOf df).score || macdBullOf df || maBullOf maTwo df

/-- The condition of line 182:
`score < 0.4 or macd_bearish_cross or ma_bearish_cross`. -/
def bearTriggerOf (maTwo : Bool) (df : List SRow) : Bool :=
  pfLt (latestRowOf df).score (PF.num (2/5)) || macdBearOf df || maBearOf maTwo df

/-- `_determine_real_time_signal` (src/utils/real_time_analyzer.py lines
99-203).  `maTwo` is whether the frame has two distinct `MA_` columns; when
it does not, both MA crossover flags are `False` (lines 140-142).  `pos` is
the portfolio state for the ticker (`None` = not held).  `price_rising`
(line 126) is computed but never used and is omitted. -/
def determineRealTimeSignal (maTwo : Bool) (df : List SRow)
    (pos : Option PosType) : SigResult :=
  if df.isEmpty then ⟨SigType.UNKNOWN, PF.num 0, none⟩
  else
    let latest := latestRowOf df
    let score := latest.score
    let recentSignal := latest.signal
    let macdBull := macdBullOf df
    let macdBear := macdBearOf df
    let maBull := maBullOf maTwo df
    let maBear := maBearOf maTwo df
    match pos with
    | some PosType.LONG =>
        if pfLt score (PF.num (2/5)) || macdBear || maBear then
          ⟨SigType.SELL, pfSub (PF.num 1) score, some score⟩
        else ⟨SigType.HOLD, PF.num (1/2), some score⟩
    | some PosType.SHORT =>
        if pfLt (PF.num (3/5)) score || macdBull || maBull then
          ⟨SigType.COVER, score, some score⟩
        else ⟨SigType.HOLD, PF.num (1/2), some score⟩
    | none =>
        if bullTriggerOf maTwo df then
          if recentSignal = 1 then ⟨SigType.BUY, score, some score⟩
          else ⟨SigType.WAIT, pfMul score (PF.num (7/10)), some score⟩
        else if bearTriggerOf maTwo df then
          if recentSignal = -1 then
            ⟨SigType.SHORT, pfSub (PF.num 1) score, some score⟩
          else ⟨SigType.WAIT, pfMul (pfSub (PF.num 1) score) (PF.num (7/10)), some score⟩
        else ⟨SigType.WAIT, PF.num (1/2), some score⟩

/-- Rebuild the per-row view of the analyzed frame that
`_determine_real_time_signal` consumes. -/
def frameRows (p : IndParams) (f : IndFrame) (sf : SigFrame)
    (comp : List PF) : List SRow :=
  (List.range f.close.length).map (fun i =>
    { close := colAt f.close i
      maS := colAt (if p.short_ma ≤ p.long_ma then f.maShort else f.maLong) i
      maL := colAt (if p.short_ma ≤ p.long_ma then f.maLong else f.maShort) i
      macd := colAt f.macd i
      macdSig := colAt f.macdSignalLine i
      score := colAt comp i
      signal := sf.signal.getD i 0 })

/-- The `indicator_settings` dict after applying the `.get` defaults of
real_time_analyzer.py lines 52-79. -/
structure IndicatorSettings where
  p : IndParams
  rsi_overbought : Rat
  rsi_oversold : Rat
  risk_percentage : Rat
  deriving Repr

/-- The fields of the dict `analyze_stock` returns that downstream code
consumes (ticker echo, wall-clock stamp and the raw frame are omitted). -/
structure Analysis where
  latestClose : Rat
  riskParams : RiskParams
  sig : SigResult
  deriving Repr

/-- `analyze_stock` (src/utils/real_time_analyzer.py lines 33-97).  The
entire body runs in a `try`; any exception is logged and turned into
`None`, and a `None`/empty fetch also yields `None`.  `fetched` is the
outcome of the `fetch_stock_data` collaborator call: an exception, `None`,
or a bar DataFrame. -/
def analyze_stock (sqrtF : Rat → Rat) (s : IndicatorSettings)
    (fetched : Except PyErr (Option (List Bar))) (pos : Option PosType) :
    Option Analysis :=
  match fetched with
  | Except.error _ => none
  | Except.ok none => none
  | Except.ok (some bars) =>
    if bars.isEmpty then none
    else
      let closes := bars.map (fun b => b.close)
      let f := calculate_indicators sqrtF s.p closes
      let sf := generate_signals s.p s.rsi_overbought s.rsi_oversold f
      let comp := calculate_composite_score s.p f
      let latestClose := (closes.getLast?).getD 0
      let latest : LatestRow := ⟨latestClose, comp.getLast?⟩
      match calculate_risk_parameters latest bars s.risk_percentage with
      | Except.error _ => none
      | Except.ok rp =>
          let rows := frameRows s.p f sf comp
          some ⟨latestClose, rp,
            determineRealTimeSignal (decide (s.p.short_ma ≠ s.p.long_ma)) rows pos⟩

/-- Alert eligibility (real_time_analyzer.py line 281):
`signal['type'] in ['BUY', 'SELL', 'SHORT', 'COVER'] and
signal['strength'] > 0.65`. -/
def alertEligible (r : SigResult) : Bool :=
  (r.stype = SigType.BUY || r.stype = SigType.SELL ||
   r.stype = SigType.SHORT || r.stype = SigType.COVER) &&
  pfLt (PF.num (13/20)) r.strength

/-- One alert-decision input for a ticker inside `_monitor_stocks`: the
signal from the evaluation together with the wall-clock time (seconds) at
which the cooldown check runs. -/
structure MonEval where
  time : Rat
  result : SigResult
  deriving Repr

/-- The cooldown gate of `_monitor_stocks` (real_time_analyzer.py lines
281-300) for one ticker: given `last_signal_time[ticker]` (if any), decide
whether the alert is emitted and produce the updated stamp.
`time_since_last = (now - last).total_seconds() / 60` and the alert is
suppressed when `time_since_last < alert_frequency`. -/
def monitorStep (alertFreq : Rat) (lastTime : Option Rat) (e : MonEval) :
    Option Rat × Bool :=
  if alertEligible e.result then
    let canSend : Bool :=
      match lastTime with
      | some t0 => !(decide ((e.time - t0) / 60 < alertFreq))
      | none => true
    if canSend then (some e.time, true) else (lastTime, false)
  else (lastTime, false)

/-- Iterate the cooldown gate over successive evaluations of one ticker,
returning the per-evaluation emission flags. -/
def monitorEmits (alertFreq : Rat) (st : Option Rat) : List MonEval → List Bool
  | [] => []
  | e :: es =>
      let r := monitorStep alertFreq st e
      r.2 :: monitorEmits alertFreq r.1 es

/-- An entry of `st.session_state.app_alerts` (alert_manager.py lines
128-135); the ticker symbol is abstracted to an identifier. -/
structure AppAlert where
  time : Rat
  tickerId : Nat
  stype : SigType
  price : Rat
  score : PF
  isRead : Bool
  deriving DecidableEq, Repr

/-- The record `notify_app_alert` appends (alert_manager.py lines 128-135);
`is_read` starts `False`. -/
def mkAppAlert (time : Rat) (tickerId : Nat) (stype : SigType) (price : Rat)
    (score : PF) : AppAlert :=
  ⟨time, tickerId, stype, price, score, false⟩

/-- `notify_app_alert` (src/utils/alert_manager.py lines 112-139): append
the new alert, then keep only `app_alerts[-50:]` when the log exceeds 50. -/
def notify_app_alert (log : List AppAlert) (time : Rat) (tickerId : Nat)
    (stype : SigType) (price : Rat) (score : PF) : List AppAlert :=
  let l := log ++ [mkAppAlert time tickerId stype price score]
  if 50 < l.length then l.drop (l.length - 50) else l

/-- All columns of an `IndFrame`, for row-alignment statements. -/
def frameCols (f : IndFrame) : List (List PF) :=
  [f.close, f.maShort, f.maLong, f.rsi, f.macd, f.macdSignalLine,
   f.macdHist, f.bbMiddle, f.bbStdCol, f.bbUpper, f.bbLower]

/-! ### Concrete evaluation data

Inputs on which the embedded code is evaluated by the theorems below. -/

/-- Square-root stand-in for runs whose data never fills a Bollinger window
(`bb_period` exceeds the data length), so `rolling(bb_period).std()` is NaN
on every row and the square root is never applied; any function of the
right type yields the same frame there. -/
def sqrt0 : Rat → Rat := fun _ => 0

/-- Parameters for the signal-vote run: `short_ma=2, long_ma=3,
rsi_period=2, macd_fast=2, macd_slow=4, macd_signal=2, bb_period=20,
bb_std=2`. -/
def pVote : IndParams := ⟨2, 3, 2, 2, 4, 2, 20, 2⟩

/-- Ten closes: a steady rise, a one-bar dip (16.9), then a strong
recovery (18.5).  At row 9 the MACD line crosses back above its signal
line while no other predicate fires. -/
def closesVote : List Rat := [10, 11, 12, 13, 14, 15, 16, 17, 169/10, 37/2]

/-- The signal frame of the vote run. -/
def sigVote : SigFrame :=
  generate_signals pVote 70 30 (calculate_indicators sqrt0 pVote closesVote)

/-- Four flat closes (no price movement) for the RSI run. -/
def closesFlat : List Rat := [100, 100, 100, 100]

/-- Parameters with `rsi_period = 2` for the RSI run. -/
def pFlat : IndParams := ⟨20, 50, 2, 12, 26, 9, 20, 2⟩

/-- A classifier row: close 100, both MAs 5 (no crossover possible), MACD
and its signal line both 0 (no crossover), composite score 0.7, discrete
signal +1. -/
def rowScoreOnly : SRow :=
  ⟨PF.num 100, PF.num 5, PF.num 5, PF.num 0, PF.num 0, PF.num (7/10), 1⟩

/-- 14 identical bars `{high 101, low 99, close 100}`: ATR = 2, support 99,
resistance 101.  With a bullish score this makes the candidate stop
`max(99·0.99, 100−4) = 98.01`, risk 1.99 > maxRisk 1, so the cap fires. -/
def histCap : List Bar := List.replicate 14 ⟨101, 99, 100⟩

/-- Latest row for the cap run: close 100, composite score 0.7 (bullish). -/
def latestCap : LatestRow := ⟨100, some (PF.num (7/10))⟩

/-- 14 identical bars `{high 130, low 80, close 100}`: ATR = 50. -/
def histWide : List Bar := List.replicate 14 ⟨130, 80, 100⟩

/-- Latest row with no composite score: `.get` defaults it to 0.5, the
neutral bias. -/
def latestNeutral : LatestRow := ⟨100, none⟩

/-- 14 bars whose low is negative, so the support level is non-positive
(the premise of the ±5%-band substitution). -/
def histBadLow : List Bar := List.replicate 14 ⟨1, -5, 1⟩

/-! ## Theorems

Batteries marks `Rat.add`/`sub`/`mul`/`inv`/`ofScientific` irreducible,
which blocks `decide`-style evaluation of the embedded code on concrete
inputs; restore the default reducibility for this development. -/

section MainTheorems

attribute [local semireducible] Rat.add Rat.sub Rat.mul Rat.inv Rat.ofScientific

/-! ### Library lemmas about the series operators -/

theorem buildSeries_length (g : List PF → PF) (xs : List PF) :
    (buildSeries g xs).length = xs.length := by
  simp [buildSeries]

theorem buildSeries_take (g : List PF → PF) (xs : List PF) (n : Nat) :
    buildSeries g (xs.take n) = (buildSeries g xs).take n := by
  unfold buildSeries
  rw [← List.map_take, List.take_range, List.length_take]
  apply List.map_congr_left
  intro i hi
  rw [List.mem_range] at hi
  rw [List.take_take]
  have hmin : min (i + 1) n = i + 1 := by omega
  rw [hmin]

theorem buildSeries_getElem (g : List PF → PF) (xs : List PF) (i : Nat)
    (h : i < xs.length) :
    colAt (buildSeries g xs) i = g (xs.take (i + 1)) := by
  simp [buildSeries, colAt, List.getD_eq_getElem?_getD, List.getElem?_map,
    List.getElem?_range, h]

theorem ewmaGo_length (a : Rat) (p : PF) (xs : List PF) :
    (ewmaGo a p xs).length = xs.length := by
  induction xs generalizing p with
  | nil => rfl
  | cons x xs ih => simp [ewmaGo, ih]

theorem ewma_length (a : Rat) (xs : List PF) :
    (ewma a xs).length = xs.length := by
  cases xs with
  | nil => rfl
  | cons x xs => simp [ewma, ewmaGo_length]

theorem ewmaGo_take (a : Rat) (p : PF) (xs : List PF) (n : Nat) :
    ewmaGo a p (xs.take n) = (ewmaGo a p xs).take n := by
  induction xs generalizing p n with
  | nil => simp [ewmaGo]
  | cons x xs ih =>
      cases n with
      | zero => simp [ewmaGo]
      | succ m => simp [ewmaGo, ih]

theorem ewma_take (a : Rat) (xs : List PF) (n : Nat) :
    ewma a (xs.take n) = (ewma a xs).take n := by
  cases xs with
  | nil => simp [ewma]
  | cons x xs =>
      cases n with
      | zero => simp [ewma]
      | succ m => simp [ewma, ewmaGo_take]

theorem validateLevel_float (x : PF) (fb : Rat) :
    validateLevel (PyVal.float x) fb =
      Except.ok (if x = PF.nan ∨ pfLe x (PF.num 0) = true then fb
        else pyValRat (PyVal.float x)) := by
  unfold validateLevel npIsnan pyLe
  by_cases hx : x = PF.nan
  · simp [hx, pfLe, Bind.bind, Except.bind]
  · by_cases hle : pfLe x (PF.num 0) = true
    · simp [hx, hle, Bind.bind, Except.bind]
    · simp [hx, hle, Bind.bind, Except.bind]

theorem colAt_map (f : PF → PF) (xs : List PF) (i : Nat) (h : i < xs.length) :
    colAt (xs.map f) i = f (colAt xs i) := by
  simp [colAt, List.getD_eq_getElem?_getD, List.getElem?_map,
    List.getElem?_eq_getElem h]

theorem colAt_take (xs : List PF) (n i : Nat) (h : i < n) :
    colAt (xs.take n) i = colAt xs i := by
  simp [colAt, List.getD_eq_getElem?_getD, List.getElem?_take, h]

theorem colAt_drop (xs : List PF) (k i : Nat) :
    colAt (xs.drop k) i = colAt xs (k + i) := by
  simp [colAt, List.getD_eq_getElem?_getD, List.getElem?_drop]

theorem colAt_replicate (n : Nat) (v : PF) (i : Nat) (h : i < n) :
    colAt (List.replicate n v) i = v := by
  simp [colAt, List.getD_eq_getElem?_getD, List.getElem?_replicate, h]

theorem colAt_zipWith (f : PF → PF → PF) (as bs : List PF) (i : Nat)
    (ha : i < as.length) (hb : i < bs.length) :
    colAt (List.zipWith f as bs) i = f (colAt as i) (colAt bs i) := by
  have hlen : i < (List.zipWith f as bs).length := by
    rw [List.length_zipWith]; omega
  simp only [colAt, List.getD_eq_getElem?_getD]
  rw [List.getElem?_eq_getElem hlen, List.getElem?_eq_getElem ha,
    List.getElem?_eq_getElem hb]
  simp [List.getElem_zipWith]

theorem mem_buildSeries {g : List PF → PF} {xs : List PF} {x : PF}
    (h : x ∈ buildSeries g xs) :
    ∃ i, i < xs.length ∧ x = g (xs.take (i + 1)) := by
  unfold buildSeries at h
  rcases List.mem_map.mp h with ⟨i, hi, hx⟩
  exact ⟨i, List.mem_range.mp hi, hx.symm⟩

theorem pfFold_zeros (l : List PF) (c : Rat) (h : ∀ x ∈ l, x = PF.num 0) :
    l.foldl pfAdd (PF.num c) = PF.num c := by
  induction l generalizing c with
  | nil => rfl
  | cons y ys ih =>
      have hy : y = PF.num 0 := h y (by simp)
      subst hy
      rw [List.foldl_cons]
      have h0 : pfAdd (PF.num c) (PF.num 0) = PF.num c := by
        simp [pfAdd]
      rw [h0]
      exact ih c (fun x hx => h x (by simp [hx]))

theorem pfSum_zeros (l : List PF) (h : ∀ x ∈ l, x = PF.num 0) :
    pfSum l = PF.num 0 := pfFold_zeros l 0 h

theorem pfFold_num_ge (l : List PF) (c : Rat)
    (h : ∀ x ∈ l, ∃ a : Rat, x = PF.num a ∧ 0 ≤ a) :
    ∃ s, l.foldl pfAdd (PF.num c) = PF.num s ∧ c ≤ s := by
  induction l generalizing c with
  | nil => exact ⟨c, rfl, le_refl c⟩
  | cons y ys ih =>
      rcases h y (by simp) with ⟨a, hy, ha⟩
      subst hy
      rw [List.foldl_cons]
      have h0 : pfAdd (PF.num c) (PF.num a) = PF.num (c + a) := rfl
      rw [h0]
      rcases ih (c + a) (fun x hx => h x (by simp [hx])) with ⟨s, hs, hle⟩
      exact ⟨s, hs, by linarith⟩

theorem pfSum_pos (l : List PF)
    (h : ∀ x ∈ l, ∃ a : Rat, x = PF.num a ∧ 0 ≤ a)
    (d : Rat) (hd : 0 < d) (hmem : PF.num d ∈ l) :
    ∃ s, pfSum l = PF.num s ∧ 0 < s := by
  rcases List.append_of_mem hmem with ⟨l1, l2, rfl⟩
  unfold pfSum
  rw [List.foldl_append]
  rcases pfFold_num_ge l1 0
      (fun x hx => h x (List.mem_append_left _ hx)) with ⟨s1, hs1, h01⟩
  rw [hs1, List.foldl_cons]
  have h0 : pfAdd (PF.num s1) (PF.num d) = PF.num (s1 + d) := rfl
  rw [h0]
  rcases pfFold_num_ge l2 (s1 + d)
      (fun x hx => h x (List.mem_append_right _ (by simp [hx]))) with
    ⟨s, hs, hle⟩
  exact ⟨s, hs, by linarith⟩

/-- On a constant close series, every `diff` cell is NaN (row 0) or 0. -/
theorem pdDiff_replicate (n : Nat) (q : Rat) :
    ∀ x ∈ pdDiff (List.replicate n (PF.num q)),
      x = PF.nan ∨ x = PF.num 0 := by
  intro x hx
  rcases mem_buildSeries hx with ⟨i, hi, hxe⟩
  rw [List.length_replicate] at hi
  rw [List.take_replicate] at hxe
  have hmin : min (i + 1) n = i + 1 := by omega
  rw [hmin, List.length_replicate] at hxe
  by_cases h2 : i + 1 < 2
  · left
    rw [hxe, if_pos h2]
  · right
    rw [hxe, if_neg h2]
    have e1 : i + 1 - 1 = i := by omega
    have e2 : i + 1 - 2 = i - 1 := by omega
    rw [e1, e2, colAt_replicate _ _ _ (by omega),
      colAt_replicate _ _ _ (by omega)]
    show PF.num (q + -q) = PF.num 0
    rw [add_neg_cancel]

/-- If every `diff` cell is NaN or 0, every `gain` cell is 0. -/
theorem rsiGain_zeros (delta : List PF)
    (h : ∀ x ∈ delta, x = PF.nan ∨ x = PF.num 0) :
    ∀ x ∈ rsiGain delta, x = PF.num 0 := by
  intro x hx
  rcases List.mem_map.mp hx with ⟨y, hy, hxe⟩
  rcases h y hy with h' | h' <;> subst h' <;> simp [← hxe, pfLt]

/-- If every `diff` cell is NaN or 0, every `loss` cell is 0. -/
theorem rsiLoss_zeros (delta : List PF)
    (h : ∀ x ∈ delta, x = PF.nan ∨ x = PF.num 0) :
    ∀ x ∈ rsiLoss delta, x = PF.num 0 := by
  intro x hx
  rcases List.mem_map.mp hx with ⟨y, hy, hxe⟩
  rcases h y hy with h' | h' <;> subst h' <;>
    simp [← hxe, pfLt, pfNeg, neg_zero]

/-- A rolling mean over an all-zero series is NaN (window not full) or 0. -/
theorem rollingMean_zeros (w : Nat) (xs : List PF)
    (h : ∀ x ∈ xs, x = PF.num 0) :
    ∀ y ∈ rollingMean w xs, y = PF.nan ∨ y = PF.num 0 := by
  intro y hy
  rcases mem_buildSeries hy with ⟨i, hi, hye⟩
  by_cases hw : (xs.take (i + 1)).length < w
  · left
    rw [hye, if_pos hw]
  · have hsum : pfSum ((xs.take (i + 1)).drop ((xs.take (i + 1)).length - w)) =
        PF.num 0 := by
      apply pfSum_zeros
      intro x hx
      exact h x (List.mem_of_mem_take (List.mem_of_mem_drop hx))
    rw [hye, if_neg hw, hsum]
    by_cases hw0 : (w : Rat) = 0
    · left
      simp [pfDiv, hw0]
    · right
      simp [pfDiv, hw0]

theorem pdDiff_length (xs : List PF) : (pdDiff xs).length = xs.length :=
  buildSeries_length _ _

theorem rollingMean_length (w : Nat) (xs : List PF) :
    (rollingMean w xs).length = xs.length := buildSeries_length _ _

theorem rsiGain_length (delta : List PF) :
    (rsiGain delta).length = delta.length := List.length_map _ _

theorem rsiLoss_length (delta : List PF) :
    (rsiLoss delta).length = delta.length := List.length_map _ _

theorem rsiCol_length (period : Nat) (c : List PF) :
    (rsiCol period c).length = c.length := by
  simp [rsiCol, List.length_map, List.length_zipWith, rollingMean_length,
    rsiGain_length, rsiLoss_length, pdDiff_length]

theorem colAt_map_num (closes : List Rat) (i : Nat) (h : i < closes.length) :
    colAt (closes.map PF.num) i = PF.num (closes.getD i 0) := by
  simp [colAt, List.getD_eq_getElem?_getD, List.getElem?_map,
    List.getElem?_eq_getElem h]

theorem pdDiff_getElem_ge1 (xs : List PF) (i : Nat) (h1 : 1 ≤ i)
    (h : i < xs.length) :
    colAt (pdDiff xs) i = pfSub (colAt xs i) (colAt xs (i - 1)) := by
  unfold pdDiff
  rw [buildSeries_getElem _ _ _ h]
  have hlen : (xs.take (i + 1)).length = i + 1 := by
    rw [List.length_take]
    omega
  simp only [hlen]
  rw [if_neg (by omega)]
  have e1 : i + 1 - 1 = i := by omega
  have e2 : i + 1 - 2 = i - 1 := by omega
  rw [e1, e2, colAt_take _ _ _ (by omega), colAt_take _ _ _ (by omega)]

theorem rollingMean_getElem_full (w : Nat) (xs : List PF) (i : Nat)
    (hw : w ≤ i + 1) (h : i < xs.length) :
    colAt (rollingMean w xs) i =
      pfDiv (pfSum ((xs.take (i + 1)).drop (i + 1 - w))) (PF.num w) := by
  unfold rollingMean
  rw [buildSeries_getElem _ _ _ h]
  have hlen : (xs.take (i + 1)).length = i + 1 := by
    rw [List.length_take]
    omega
  simp only [hlen]
  rw [if_neg (by omega)]

/-- On strictly increasing closes, every `diff` cell is NaN (row 0) or a
strictly positive number. -/
theorem pdDiff_increasing (closes : List Rat)
    (hinc : ∀ j, j + 1 < closes.length →
      closes.getD j 0 < closes.getD (j + 1) 0) :
    ∀ x ∈ pdDiff (closes.map PF.num),
      x = PF.nan ∨ ∃ d, x = PF.num d ∧ 0 < d := by
  intro x hx
  rcases mem_buildSeries hx with ⟨i, hi, hxe⟩
  rw [List.length_map] at hi
  have hlen : ((closes.map PF.num).take (i + 1)).length = i + 1 := by
    rw [List.length_take, List.length_map]
    omega
  simp only [hlen] at hxe
  by_cases h2 : i + 1 < 2
  · left
    rw [hxe, if_pos h2]
  · right
    have h1 : 1 ≤ i := by omega
    rw [hxe, if_neg h2]
    have e1 : i + 1 - 1 = i := by omega
    have e2 : i + 1 - 2 = i - 1 := by omega
    rw [e1, e2, colAt_take _ _ _ (by omega), colAt_take _ _ _ (by omega),
      colAt_map_num _ _ hi, colAt_map_num _ _ (by omega)]
    refine ⟨closes.getD i 0 - closes.getD (i - 1) 0, ?_, ?_⟩
    · show PF.num (closes.getD i 0 + -closes.getD (i - 1) 0) = _
      rw [← sub_eq_add_neg]
    · have := hinc (i - 1) (by omega)
      have e3 : i - 1 + 1 = i := by omega
      rw [e3] at this
      linarith

/-- On strictly increasing closes, every `loss` cell is 0. -/
theorem rsiLoss_increasing (closes : List Rat)
    (hinc : ∀ j, j + 1 < closes.length →
      closes.getD j 0 < closes.getD (j + 1) 0) :
    ∀ x ∈ rsiLoss (pdDiff (closes.map PF.num)), x = PF.num 0 := by
  intro x hx
  rcases List.mem_map.mp hx with ⟨y, hy, hxe⟩
  rcases pdDiff_increasing closes hinc y hy with h' | ⟨d, h', hd⟩
  · subst h'
    simp [← hxe, pfLt, pfNeg, neg_zero]
  · subst h'
    have : pfLt (PF.num d) (PF.num 0) = false := by
      simp [pfLt]
      linarith
    rw [← hxe, this]
    show PF.num (-0) = PF.num 0
    rw [neg_zero]

/-- On strictly increasing closes, every `gain` cell is a non-negative
number. -/
theorem rsiGain_increasing (closes : List Rat)
    (hinc : ∀ j, j + 1 < closes.length →
      closes.getD j 0 < closes.getD (j + 1) 0) :
    ∀ x ∈ rsiGain (pdDiff (closes.map PF.num)),
      ∃ a, x = PF.num a ∧ 0 ≤ a := by
  intro x hx
  rcases List.mem_map.mp hx with ⟨y, hy, hxe⟩
  rcases pdDiff_increasing closes hinc y hy with h' | ⟨d, h', hd⟩
  · subst h'
    exact ⟨0, by simp [← hxe, pfLt], le_refl 0⟩
  · subst h'
    have : pfLt (PF.num 0) (PF.num d) = true := by
      simp [pfLt]
      linarith
    rw [← hxe, this]
    exact ⟨d, by simp, le_of_lt hd⟩

/-- On strictly increasing closes every full-window RSI row is exactly 100:
the average loss is 0, the average gain is positive, `gain/0 = +∞` and
`100 − 100/(1+∞) = 100` (then `fillna` leaves 100 unchanged). -/
theorem rsi_increasing_100 (sqrtF : Rat → Rat) (p : IndParams)
    (closes : List Rat) (hp : 2 ≤ p.rsi_period)
    (hinc : ∀ j, j + 1 < closes.length →
      closes.getD j 0 < closes.getD (j + 1) 0)
    (i : Nat) (hip : p.rsi_period - 1 ≤ i) (hin : i < closes.length) :
    colAt (calculate_indicators sqrtF p closes).rsi i = PF.num 100 := by
  have h1 : 1 ≤ i := by omega
  have hPle : p.rsi_period ≤ i + 1 := by omega
  have hclen : (closes.map PF.num).length = closes.length := List.length_map _ _
  have hdlen : (pdDiff (closes.map PF.num)).length = closes.length := by
    rw [pdDiff_length, hclen]
  have hglen : (rsiGain (pdDiff (closes.map PF.num))).length = closes.length := by
    rw [rsiGain_length, hdlen]
  have hllen : (rsiLoss (pdDiff (closes.map PF.num))).length = closes.length := by
    rw [rsiLoss_length, hdlen]
  -- the average loss at row i is 0
  have hlavg : colAt (rollingMean p.rsi_period
      (rsiLoss (pdDiff (closes.map PF.num)))) i = PF.num 0 := by
    rw [rollingMean_getElem_full _ _ _ hPle (by omega)]
    have hsum : pfSum (((rsiLoss (pdDiff (closes.map PF.num))).take
        (i + 1)).drop (i + 1 - p.rsi_period)) = PF.num 0 := by
      apply pfSum_zeros
      intro x hx
      exact rsiLoss_increasing closes hinc x
        (List.mem_of_mem_take (List.mem_of_mem_drop hx))
    rw [hsum]
    have hP0 : ((p.rsi_period : Rat)) ≠ 0 := by
      have : (0 : Rat) < p.rsi_period := by
        exact_mod_cast Nat.lt_of_lt_of_le (by norm_num) hp
      linarith
    simp [pfDiv, hP0]
  -- the average gain at row i is strictly positive
  have hgavg : ∃ g, colAt (rollingMean p.rsi_period
      (rsiGain (pdDiff (closes.map PF.num)))) i = PF.num g ∧ 0 < g := by
    rw [rollingMean_getElem_full _ _ _ hPle (by omega)]
    set win := ((rsiGain (pdDiff (closes.map PF.num))).take (i + 1)).drop
      (i + 1 - p.rsi_period) with hwin
    have hwinlen : win.length = p.rsi_period := by
      rw [hwin, List.length_drop, List.length_take]
      omega
    -- the gain at global row i is positive and lies in the window
    have hdi : colAt (pdDiff (closes.map PF.num)) i =
        PF.num (closes.getD i 0 - closes.getD (i - 1) 0) := by
      rw [pdDiff_getElem_ge1 _ _ h1 (by omega), colAt_map_num _ _ hin,
        colAt_map_num _ _ (by omega)]
      show PF.num (closes.getD i 0 + -closes.getD (i - 1) 0) = _
      rw [← sub_eq_add_neg]
    have hdpos : 0 < closes.getD i 0 - closes.getD (i - 1) 0 := by
      have := hinc (i - 1) (by omega)
      have e3 : i - 1 + 1 = i := by omega
      rw [e3] at this
      linarith
    have hgi : colAt (rsiGain (pdDiff (closes.map PF.num))) i =
        PF.num (closes.getD i 0 - closes.getD (i - 1) 0) := by
      unfold rsiGain
      rw [colAt_map _ _ _ (by omega), hdi]
      have : pfLt (PF.num 0)
          (PF.num (closes.getD i 0 - closes.getD (i - 1) 0)) = true := by
        simp only [pfLt, decide_eq_true_eq]
        exact hdpos
      rw [this]
      simp
    have hwm : PF.num (closes.getD i 0 - closes.getD (i - 1) 0) ∈ win := by
      have hcw : colAt win (p.rsi_period - 1) =
          PF.num (closes.getD i 0 - closes.getD (i - 1) 0) := by
        rw [hwin, colAt_drop]
        have e4 : i + 1 - p.rsi_period + (p.rsi_period - 1) = i := by omega
        rw [e4, colAt_take _ _ _ (by omega), hgi]
      have hidx : p.rsi_period - 1 < win.length := by omega
      unfold colAt at hcw
      rw [List.getD_eq_getElem?_getD, List.getElem?_eq_getElem hidx,
        Option.getD_some] at hcw
      rw [← hcw]
      exact List.getElem_mem hidx
    rcases pfSum_pos win
        (fun x hx => rsiGain_increasing closes hinc x
          (List.mem_of_mem_take (List.mem_of_mem_drop hx)))
        _ hdpos hwm with ⟨s, hs, hspos⟩
    rw [hs]
    have hPpos : (0 : Rat) < p.rsi_period := by
      exact_mod_cast Nat.lt_of_lt_of_le (by norm_num) hp
    refine ⟨s / p.rsi_period, ?_, div_pos hspos hPpos⟩
    simp [pfDiv, ne_of_gt hPpos]
  -- assemble: rs = +∞, RSI = 100
  rcases hgavg with ⟨g, hg, hgpos⟩
  have hrsi : colAt (rsiCol p.rsi_period (closes.map PF.num)) i =
      PF.num 100 := by
    unfold rsiCol
    rw [colAt_map _ _ _ (by
      rw [List.length_zipWith, rollingMean_length, rollingMean_length,
        hglen, hllen]
      omega)]
    rw [colAt_zipWith _ _ _ _ (by rw [rollingMean_length, hglen]; omega)
      (by rw [rollingMean_length, hllen]; omega)]
    rw [hg, hlavg]
    have hrs : pfDiv (PF.num g) (PF.num 0) = PF.inf true := by
      simp [pfDiv, hgpos, ne_of_gt hgpos]
    rw [hrs]
    show PF.num (100 + -0) = PF.num 100
    rw [neg_zero, add_zero]
  show colAt ((rsiCol p.rsi_period (closes.map PF.num)).map fill0) i =
    PF.num 100
  rw [colAt_map _ _ _ (by rw [rsiCol_length, hclen]; omega), hrsi]
  rfl

/-- Claim C4 as amended, proved as one conjunction: (1) on a
constant close series (no price movement) every cell of the output `RSI`
column is 0 — the `0/0` ratio is NaN, `100 − 100/(1+NaN)` is NaN, and the
final `fillna(0)` turns it into 0, not 50 and not an exception; (2) on a
strictly increasing close series (positive gains, zero average loss — the
zero loss-denominator with positive gains) with `rsi_period ≥ 2`, every row
with a full RSI window has RSI exactly 100 (`gain/0 = +∞`,
`100 − 100/(1+∞) = 100`). -/
theorem c4_flat_rsi_zero_and_gains_rsi_100 :
    (∀ (sqrtF : Rat → Rat) (p : IndParams) (n : Nat) (q : Rat),
      ∀ x ∈ (calculate_indicators sqrtF p (List.replicate n q)).rsi,
        x = PF.num 0) ∧
    (∀ (sqrtF : Rat → Rat) (p : IndParams) (closes : List Rat),
      2 ≤ p.rsi_period →
      (∀ j, j < closes.length - 1 →
        closes.getD j 0 < closes.getD (j + 1) 0) →
      ∀ i, p.rsi_period - 1 ≤ i → i < closes.length →
        colAt (calculate_indicators sqrtF p closes).rsi i = PF.num 100) := by
  constructor
  · intro sqrtF p n q x hx
    have hc : (List.replicate n q : List Rat).map PF.num =
        List.replicate n (PF.num q) := by
      rw [List.map_replicate]
    simp only [calculate_indicators, hc] at hx
    rcases List.mem_map.mp hx with ⟨y, hy, hxe⟩
    have hynan : y = PF.nan := by
      unfold rsiCol at hy
      rcases List.mem_map.mp hy with ⟨z, hz, hye⟩
      have hzn : z = PF.nan := by
        rcases List.mem_iff_getElem.mp hz with ⟨i, hilen, hzi⟩
        rw [List.getElem_zipWith] at hzi
        have hlen1 : i < (rollingMean p.rsi_period
            (rsiGain (pdDiff (List.replicate n (PF.num q))))).length := by
          have := hilen
          rw [List.length_zipWith] at this
          omega
        have hlen2 : i < (rollingMean p.rsi_period
            (rsiLoss (pdDiff (List.replicate n (PF.num q))))).length := by
          have := hilen
          rw [List.length_zipWith] at this
          omega
        have hg := rollingMean_zeros p.rsi_period _
          (rsiGain_zeros _ (pdDiff_replicate n q)) _ (List.getElem_mem hlen1)
        have hl := rollingMean_zeros p.rsi_period _
          (rsiLoss_zeros _ (pdDiff_replicate n q)) _ (List.getElem_mem hlen2)
        rw [← hzi]
        rcases hg with hg | hg <;> rcases hl with hl | hl <;>
          rw [hg, hl] <;> simp [pfDiv]
      subst hzn
      rw [← hye]
      rfl
    subst hynan
    rw [← hxe]
    rfl
  · intro sqrtF p closes hp hball i hip hin
    have hinc : ∀ j, j + 1 < closes.length →
        closes.getD j 0 < closes.getD (j + 1) 0 := fun j hj =>
      hball j (by omega)
    exact rsi_increasing_100 sqrtF p closes hp hinc i hip hin

theorem pfAdd_nan_left (x : PF) : pfAdd PF.nan x = PF.nan := by
  cases x <;> rfl

theorem pfDiv_nan_left (x : PF) : pfDiv PF.nan x = PF.nan := by
  cases x <;> rfl

theorem pfSub_nan_left (x : PF) : pfSub PF.nan x = PF.nan := by
  unfold pfSub
  exact pfAdd_nan_left _

theorem pdDiff_take (xs : List PF) (n : Nat) :
    pdDiff (xs.take n) = (pdDiff xs).take n := buildSeries_take _ _ _

theorem rollingMean_take (w : Nat) (xs : List PF) (n : Nat) :
    rollingMean w (xs.take n) = (rollingMean w xs).take n :=
  buildSeries_take _ _ _

theorem rollingStd_take (sqrtF : Rat → Rat) (w : Nat) (xs : List PF)
    (n : Nat) : rollingStd sqrtF w (xs.take n) =
      (rollingStd sqrtF w xs).take n := buildSeries_take _ _ _

theorem rollingStd_length (sqrtF : Rat → Rat) (w : Nat) (xs : List PF) :
    (rollingStd sqrtF w xs).length = xs.length := buildSeries_length _ _

theorem rsiCol_take (period : Nat) (c : List PF) (n : Nat) :
    rsiCol period (c.take n) = (rsiCol period c).take n := by
  simp only [rsiCol, rsiGain, rsiLoss]
  rw [pdDiff_take, List.map_take, List.map_take, rollingMean_take,
    rollingMean_take, ← List.zipWith_distrib_take, List.map_take]

theorem macdLine_take (fast slow : Nat) (c : List PF) (n : Nat) :
    macdLine fast slow (c.take n) = (macdLine fast slow c).take n := by
  unfold macdLine
  rw [ewma_take, ewma_take, ← List.zipWith_distrib_take]

theorem macdSignalCol_take (p : IndParams) (c : List PF) (n : Nat) :
    macdSignalCol p (c.take n) = (macdSignalCol p c).take n := by
  unfold macdSignalCol
  rw [macdLine_take, ewma_take]

theorem macdHistCol_take (p : IndParams) (c : List PF) (n : Nat) :
    macdHistCol p (c.take n) = (macdHistCol p c).take n := by
  unfold macdHistCol
  rw [macdLine_take, macdSignalCol_take, ← List.zipWith_distrib_take]

theorem bbStdScaled_take (sqrtF : Rat → Rat) (p : IndParams) (c : List PF)
    (n : Nat) : bbStdScaled sqrtF p (c.take n) =
      (bbStdScaled sqrtF p c).take n := by
  unfold bbStdScaled
  rw [rollingStd_take, List.map_take]

theorem bbUpperCol_take (sqrtF : Rat → Rat) (p : IndParams) (c : List PF)
    (n : Nat) : bbUpperCol sqrtF p (c.take n) =
      (bbUpperCol sqrtF p c).take n := by
  unfold bbUpperCol
  rw [rollingMean_take, bbStdScaled_take, ← List.zipWith_distrib_take]

theorem bbLowerCol_take (sqrtF : Rat → Rat) (p : IndParams) (c : List PF)
    (n : Nat) : bbLowerCol sqrtF p (c.take n) =
      (bbLowerCol sqrtF p c).take n := by
  unfold bbLowerCol
  rw [rollingMean_take, bbStdScaled_take, ← List.zipWith_distrib_take]

theorem macdLine_length (fast slow : Nat) (c : List PF) :
    (macdLine fast slow c).length = c.length := by
  simp [macdLine, List.length_zipWith, ewma_length]

theorem macdSignalCol_length (p : IndParams) (c : List PF) :
    (macdSignalCol p c).length = c.length := by
  simp [macdSignalCol, ewma_length, macdLine_length]

theorem macdHistCol_length (p : IndParams) (c : List PF) :
    (macdHistCol p c).length = c.length := by
  simp [macdHistCol, List.length_zipWith, macdLine_length,
    macdSignalCol_length]

theorem bbStdScaled_length (sqrtF : Rat → Rat) (p : IndParams)
    (c : List PF) : (bbStdScaled sqrtF p c).length = c.length := by
  simp [bbStdScaled, rollingStd_length]

theorem bbUpperCol_length (sqrtF : Rat → Rat) (p : IndParams)
    (c : List PF) : (bbUpperCol sqrtF p c).length = c.length := by
  simp [bbUpperCol, List.length_zipWith, rollingMean_length,
    bbStdScaled_length]

theorem bbLowerCol_length (sqrtF : Rat → Rat) (p : IndParams)
    (c : List PF) : (bbLowerCol sqrtF p c).length = c.length := by
  simp [bbLowerCol, List.length_zipWith, rollingMean_length,
    bbStdScaled_length]

theorem rollingMean_getElem_notfull (w : Nat) (xs : List PF) (i : Nat)
    (hw : i + 1 < w) (h : i < xs.length) :
    colAt (rollingMean w xs) i = PF.nan := by
  unfold rollingMean
  rw [buildSeries_getElem _ _ _ h]
  rw [if_pos (by rw [List.length_take]; omega)]

theorem rollingStd_getElem_notfull (sqrtF : Rat → Rat) (w : Nat)
    (xs : List PF) (i : Nat) (hw : i + 1 < w) (h : i < xs.length) :
    colAt (rollingStd sqrtF w xs) i = PF.nan := by
  unfold rollingStd
  rw [buildSeries_getElem _ _ _ h]
  rw [if_pos (by rw [List.length_take]; omega)]

/-- Claim C5: for every non-empty close sequence and every valid parameter
setting (the spec's recognized ranges), `calculate_indicators` (1) returns
exactly one row per input bar in every column; (2) has no look-ahead: the
frame computed on the first `n` bars is exactly the first `n` rows of the
frame computed on all bars, so row `i` depends only on bars `0..i`; and
(3) rows whose rolling window is not yet full carry the placeholder 0 (from
`fillna(0)`) in the MA, RSI and Bollinger columns rather than being
dropped. -/
theorem c5_rows_aligned_no_lookahead (sqrtF : Rat → Rat) (p : IndParams)
    (closes : List Rat) (hne : closes ≠ [])
    (hval : 1 ≤ p.short_ma ∧ 1 ≤ p.long_ma ∧ 2 ≤ p.rsi_period ∧
      1 ≤ p.macd_fast ∧ 1 ≤ p.macd_slow ∧ 1 ≤ p.macd_sig ∧
      2 ≤ p.bb_period ∧ 0 < p.bb_std) :
    (∀ col ∈ frameCols (calculate_indicators sqrtF p closes),
      col.length = closes.length) ∧
    (∀ n, frameCols (calculate_indicators sqrtF p (closes.take n)) =
      (frameCols (calculate_indicators sqrtF p closes)).map
        (fun col => col.take n)) ∧
    (∀ i, i < closes.length →
      (i + 1 < p.short_ma →
        colAt (calculate_indicators sqrtF p closes).maShort i = PF.num 0) ∧
      (i + 1 < p.long_ma →
        colAt (calculate_indicators sqrtF p closes).maLong i = PF.num 0) ∧
      (i + 1 < p.rsi_period →
        colAt (calculate_indicators sqrtF p closes).rsi i = PF.num 0) ∧
      (i + 1 < p.bb_period →
        colAt (calculate_indicators sqrtF p closes).bbMiddle i = PF.num 0 ∧
        colAt (calculate_indicators sqrtF p closes).bbStdCol i = PF.num 0 ∧
        colAt (calculate_indicators sqrtF p closes).bbUpper i = PF.num 0 ∧
        colAt (calculate_indicators sqrtF p closes).bbLower i = PF.num 0)) := by
  refine ⟨?_, ?_, ?_⟩
  · intro col hcol
    simp only [frameCols, calculate_indicators, List.mem_cons,
      List.not_mem_nil, or_false] at hcol
    rcases hcol with h | h | h | h | h | h | h | h | h | h | h <;> subst h <;>
      simp [List.length_map, rollingMean_length, rsiCol_length,
        macdLine_length, macdSignalCol_length, macdHistCol_length,
        rollingStd_length, bbUpperCol_length, bbLowerCol_length]
  · intro n
    have hmapn : (closes.take n).map PF.num = (closes.map PF.num).take n :=
      List.map_take _ _ _
    simp only [frameCols, calculate_indicators, List.map_cons, List.map_nil,
      hmapn]
    rw [rollingMean_take, rollingMean_take, rollingMean_take, rsiCol_take,
      macdLine_take, macdSignalCol_take, macdHistCol_take, rollingStd_take,
      bbUpperCol_take, bbLowerCol_take]
    simp [List.map_take]
  · intro i hi
    have hclen : (closes.map PF.num).length = closes.length :=
      List.length_map _ _
    refine ⟨?_, ?_, ?_, ?_⟩
    · intro hw
      show colAt ((rollingMean p.short_ma (closes.map PF.num)).map fill0) i =
        PF.num 0
      rw [colAt_map _ _ _ (by rw [rollingMean_length, hclen]; omega),
        rollingMean_getElem_notfull _ _ _ hw (by omega)]
      rfl
    · intro hw
      show colAt ((rollingMean p.long_ma (closes.map PF.num)).map fill0) i =
        PF.num 0
      rw [colAt_map _ _ _ (by rw [rollingMean_length, hclen]; omega),
        rollingMean_getElem_notfull _ _ _ hw (by omega)]
      rfl
    · intro hw
      show colAt ((rsiCol p.rsi_period (closes.map PF.num)).map fill0) i =
        PF.num 0
      rw [colAt_map _ _ _ (by rw [rsiCol_length, hclen]; omega)]
      have hd : (pdDiff (closes.map PF.num)).length = closes.length := by
        rw [pdDiff_length, hclen]
      have hg : (rsiGain (pdDiff (closes.map PF.num))).length =
          closes.length := by rw [rsiGain_length, hd]
      have hl : (rsiLoss (pdDiff (closes.map PF.num))).length =
          closes.length := by rw [rsiLoss_length, hd]
      simp only [rsiCol]
      rw [colAt_map _ _ _ (by
          rw [List.length_zipWith, rollingMean_length, rollingMean_length,
            hg, hl]
          omega),
        colAt_zipWith _ _ _ _ (by rw [rollingMean_length, hg]; omega)
          (by rw [rollingMean_length, hl]; omega),
        rollingMean_getElem_notfull _ _ _ hw (by omega),
        pfDiv_nan_left]
      rfl
    · intro hw
      refine ⟨?_, ?_, ?_, ?_⟩
      · show colAt ((rollingMean p.bb_period (closes.map PF.num)).map fill0)
          i = PF.num 0
        rw [colAt_map _ _ _ (by rw [rollingMean_length, hclen]; omega),
          rollingMean_getElem_notfull _ _ _ hw (by omega)]
        rfl
      · show colAt ((rollingStd sqrtF p.bb_period
            (closes.map PF.num)).map fill0) i = PF.num 0
        rw [colAt_map _ _ _ (by rw [rollingStd_length, hclen]; omega),
          rollingStd_getElem_notfull _ _ _ _ hw (by omega)]
        rfl
      · show colAt ((bbUpperCol sqrtF p (closes.map PF.num)).map fill0) i =
          PF.num 0
        rw [colAt_map _ _ _ (by rw [bbUpperCol_length, hclen]; omega)]
        simp only [bbUpperCol]
        rw [colAt_zipWith _ _ _ _
            (by rw [rollingMean_length, hclen]; omega)
            (by rw [bbStdScaled_length, hclen]; omega),
          rollingMean_getElem_notfull _ _ _ hw (by omega), pfAdd_nan_left]
        rfl
      · show colAt ((bbLowerCol sqrtF p (closes.map PF.num)).map fill0) i =
          PF.num 0
        rw [colAt_map _ _ _ (by rw [bbLowerCol_length, hclen]; omega)]
        simp only [bbLowerCol]
        rw [colAt_zipWith _ _ _ _
            (by rw [rollingMean_length, hclen]; omega)
            (by rw [bbStdScaled_length, hclen]; omega),
          rollingMean_getElem_notfull _ _ _ hw (by omega), pfSub_nan_left]
        rfl

/-- Witness for C5 at `closes = [1, 2]` with windows
`short_ma=1, long_ma=2, rsi_period=2, macd 1/1/1, bb_period=2, bb_std=1`. -/
theorem c5_rows_aligned_no_lookahead_witness :
    (([1, 2] : List Rat) ≠ [] ∧
      1 ≤ (⟨1, 2, 2, 1, 1, 1, 2, 1⟩ : IndParams).short_ma) ∧
    ((∀ col ∈ frameCols (calculate_indicators sqrt0 ⟨1, 2, 2, 1, 1, 1, 2, 1⟩
        [1, 2]), col.length = ([1, 2] : List Rat).length) ∧
     (∀ n, frameCols (calculate_indicators sqrt0 ⟨1, 2, 2, 1, 1, 1, 2, 1⟩
        (([1, 2] : List Rat).take n)) =
       (frameCols (calculate_indicators sqrt0 ⟨1, 2, 2, 1, 1, 1, 2, 1⟩
         [1, 2])).map (fun col => col.take n)) ∧
     (∀ i, i < ([1, 2] : List Rat).length →
      (i + 1 < (⟨1, 2, 2, 1, 1, 1, 2, 1⟩ : IndParams).short_ma →
        colAt (calculate_indicators sqrt0 ⟨1, 2, 2, 1, 1, 1, 2, 1⟩
          [1, 2]).maShort i = PF.num 0) ∧
      (i + 1 < (⟨1, 2, 2, 1, 1, 1, 2, 1⟩ : IndParams).long_ma →
        colAt (calculate_indicators sqrt0 ⟨1, 2, 2, 1, 1, 1, 2, 1⟩
          [1, 2]).maLong i = PF.num 0) ∧
      (i + 1 < (⟨1, 2, 2, 1, 1, 1, 2, 1⟩ : IndParams).rsi_period →
        colAt (calculate_indicators sqrt0 ⟨1, 2, 2, 1, 1, 1, 2, 1⟩
          [1, 2]).rsi i = PF.num 0) ∧
      (i + 1 < (⟨1, 2, 2, 1, 1, 1, 2, 1⟩ : IndParams).bb_period →
        colAt (calculate_indicators sqrt0 ⟨1, 2, 2, 1, 1, 1, 2, 1⟩
          [1, 2]).bbMiddle i = PF.num 0 ∧
        colAt (calculate_indicators sqrt0 ⟨1, 2, 2, 1, 1, 1, 2, 1⟩
          [1, 2]).bbStdCol i = PF.num 0 ∧
        colAt (calculate_indicators sqrt0 ⟨1, 2, 2, 1, 1, 1, 2, 1⟩
          [1, 2]).bbUpper i = PF.num 0 ∧
        colAt (calculate_indicators sqrt0 ⟨1, 2, 2, 1, 1, 1, 2, 1⟩
          [1, 2]).bbLower i = PF.num 0))) :=
  ⟨⟨by decide, by decide⟩,
    c5_rows_aligned_no_lookahead sqrt0 ⟨1, 2, 2, 1, 1, 1, 2, 1⟩ [1, 2]
      (by decide)
      ⟨by decide, by decide, by decide, by decide, by decide, by decide,
        by decide, by decide⟩⟩

/-- Counterexample to claim C4: with four flat closes and `rsi_period = 2`,
row 3 has a full RSI window, yet the output RSI cell is 0, not 50 — the
`0/0` ratio is NaN and `fillna(0)` resolves it to 0. -/
theorem c4_counterexample_flat_rsi_not_50 :
    colAt (calculate_indicators sqrt0 pFlat closesFlat).rsi 3 = PF.num 0 ∧
    pFlat.rsi_period ≤ 3 + 1 ∧
    PF.num 0 ≠ PF.num 50 := by
  decide

/-- Witness for C4's amended theorem: the flat part at `closes = [100]*4`
(every RSI cell 0) and the increasing part at `closes = [1, 2, 3]`,
`rsi_period = 2` (RSI at row 2 is 100). -/
theorem c4_flat_rsi_zero_and_gains_rsi_100_witness :
    ((2 : Nat) ≤ pFlat.rsi_period ∧
      (∀ j, j < ([1, 2, 3] : List Rat).length - 1 →
        ([1, 2, 3] : List Rat).getD j 0 < ([1, 2, 3] : List Rat).getD (j + 1) 0) ∧
      pFlat.rsi_period - 1 ≤ 2 ∧ 2 < ([1, 2, 3] : List Rat).length) ∧
    (∀ x ∈ (calculate_indicators sqrt0 pFlat (List.replicate 4 100)).rsi,
      x = PF.num 0) ∧
    colAt (calculate_indicators sqrt0 pFlat [1, 2, 3]).rsi 2 = PF.num 100 :=
  ⟨⟨by decide, by decide, by decide, by decide⟩,
   c4_flat_rsi_zero_and_gains_rsi_100.1 sqrt0 pFlat 4 100,
   c4_flat_rsi_zero_and_gains_rsi_100.2 sqrt0 pFlat [1, 2, 3]
     (by decide) (by decide) 2 (by decide) (by decide)⟩

/-- Claim C10: after every call to `notify_app_alert`, the in-process
app-alert log has at most 50 entries, and the entries kept are exactly the
most recent 50 appended items — the result is the 50-element tail (or the
whole list when shorter) of the log with the new alert appended, a suffix of
the append order, so the oldest alerts are discarded first. -/
theorem c10_app_alert_log_bounded (log : List AppAlert) (t : Rat)
    (tk : Nat) (st : SigType) (pr : Rat) (sc : PF) :
    (notify_app_alert log t tk st pr sc).length ≤ 50 ∧
    notify_app_alert log t tk st pr sc =
      (log ++ [mkAppAlert t tk st pr sc]).drop ((log.length + 1) - 50) ∧
    (notify_app_alert log t tk st pr sc) <:+
      (log ++ [mkAppAlert t tk st pr sc]) := by
  unfold notify_app_alert
  have hlen : (log ++ [mkAppAlert t tk st pr sc]).length = log.length + 1 := by
    simp
  by_cases h : 50 < (log ++ [mkAppAlert t tk st pr sc]).length
  · simp only [h, if_pos]
    refine ⟨?_, ?_, List.drop_suffix _ _⟩
    · rw [List.length_drop]
      omega
    · rw [hlen]
  · simp only [h, if_neg, not_false_iff]
    refine ⟨?_, ?_, List.suffix_refl _⟩
    · omega
    · have h0 : log.length + 1 - 50 = 0 := by omega
      rw [h0, List.drop_zero]

/-- If the cooldown gate does not emit, the `last_signal_time` stamp is
unchanged (the stamp is written only inside `if can_send_alert`). -/
theorem monitorStep_no_emit_state (freq : Rat) (st : Option Rat)
    (e : MonEval) (h : (monitorStep freq st e).2 = false) :
    (monitorStep freq st e).1 = st := by
  by_cases he : alertEligible e.result = true
  · cases st with
    | none => simp [monitorStep, he] at h
    | some t0 =>
        by_cases hd : (e.time - t0) / 60 < freq
        · simp [monitorStep, he, hd]
        · simp [monitorStep, he, hd] at h
  · simp [monitorStep, he]

/-- If the cooldown gate emits, the stamp becomes the evaluation time. -/
theorem monitorStep_emit_state (freq : Rat) (st : Option Rat)
    (e : MonEval) (h : (monitorStep freq st e).2 = true) :
    (monitorStep freq st e).1 = some e.time := by
  by_cases he : alertEligible e.result = true
  · cases st with
    | none => simp [monitorStep, he]
    | some t0 =>
        by_cases hd : (e.time - t0) / 60 < freq
        · simp [monitorStep, he, hd] at h
        · simp [monitorStep, he, hd]
  · simp [monitorStep, he] at h

/-- Claim C8: for one ticker, if two evaluations are alert-eligible, the
first one emits, and the second runs less than `alert_frequency` minutes
after the first, then exactly the first of the two emits
(`[true, false]`), and the `last_signal_time` stamp is updated only on
emission: it is the first evaluation's time after both steps, and in
general a non-emitting step leaves the stamp unchanged. -/
theorem c8_cooldown_single_alert (freq : Rat) (st0 : Option Rat)
    (e1 e2 : MonEval)
    (h1 : alertEligible e1.result = true)
    (h2 : alertEligible e2.result = true)
    (hemit : (monitorStep freq st0 e1).2 = true)
    (hwin : (e2.time - e1.time) / 60 < freq) :
    monitorEmits freq st0 [e1, e2] = [true, false] ∧
    (monitorStep freq (monitorStep freq st0 e1).1 e2).1 = some e1.time := by
  have hst : (monitorStep freq st0 e1).1 = some e1.time :=
    monitorStep_emit_state freq st0 e1 hemit
  have hstep2 : monitorStep freq (some e1.time) e2 = (some e1.time, false) := by
    simp [monitorStep, h2, hwin]
  constructor
  · simp only [monitorEmits]
    rw [hemit, hst, hstep2]
  · rw [hst, hstep2]

/-- Witness for C8 at a concrete run: two eligible BUY evaluations with
strength 0.9, two minutes apart, cooldown 15 minutes. -/
theorem c8_cooldown_single_alert_witness :
    alertEligible (⟨SigType.BUY, PF.num (9/10), some (PF.num (9/10))⟩ :
      SigResult) = true ∧
    (monitorStep 15 none ⟨0, ⟨SigType.BUY, PF.num (9/10),
      some (PF.num (9/10))⟩⟩).2 = true ∧
    ((120 : Rat) - 0) / 60 < 15 ∧
    (monitorEmits 15 none
      [⟨0, ⟨SigType.BUY, PF.num (9/10), some (PF.num (9/10))⟩⟩,
       ⟨120, ⟨SigType.BUY, PF.num (9/10), some (PF.num (9/10))⟩⟩] =
        [true, false] ∧
     (monitorStep 15 (monitorStep 15 none ⟨0, ⟨SigType.BUY, PF.num (9/10),
        some (PF.num (9/10))⟩⟩).1
        ⟨120, ⟨SigType.BUY, PF.num (9/10), some (PF.num (9/10))⟩⟩).1 =
       some (0 : Rat)) :=
  ⟨by decide, by decide, by decide,
    c8_cooldown_single_alert 15 none
      ⟨0, ⟨SigType.BUY, PF.num (9/10), some (PF.num (9/10))⟩⟩
      ⟨120, ⟨SigType.BUY, PF.num (9/10), some (PF.num (9/10))⟩⟩
      (by decide) (by decide) (by decide) (by decide)⟩

/-- Counterexample to claim C7: with no position, composite score 0.7 > 0.6,
no MACD and no MA bullish crossover on the latest bar, and discrete signal
+1, the classifier returns BUY — the claim says that without any bullish
crossover the action is WAIT, not BUY. -/
theorem c7_counterexample_buy_without_cross :
    pfLt (PF.num (3/5)) (latestRowOf [rowScoreOnly, rowScoreOnly]).score = true ∧
    macdBullOf [rowScoreOnly, rowScoreOnly] = false ∧
    maBullOf true [rowScoreOnly, rowScoreOnly] = false ∧
    (latestRowOf [rowScoreOnly, rowScoreOnly]).signal = 1 ∧
    (determineRealTimeSignal true [rowScoreOnly, rowScoreOnly] none).stype =
      SigType.BUY ∧
    SigType.BUY ≠ SigType.WAIT := by
  decide

/-- Claim C7 as amended: in the FLAT state the classifier returns BUY
exactly when the DISJUNCTION `score > 0.6 ∨ MACD bullish cross ∨ MA bullish
cross` holds together with discrete signal = +1 (so a crossover with a low
score suffices, and a score above 0.6 needs no crossover); when the
disjunction holds but the discrete signal is not +1, it returns WAIT. -/
theorem c7_flat_buy_characterization (maTwo : Bool) (df : List SRow) :
    ((determineRealTimeSignal maTwo df none).stype = SigType.BUY ↔
      (bullTriggerOf maTwo df = true ∧ (latestRowOf df).signal = 1)) ∧
    (bullTriggerOf maTwo df = true → (latestRowOf df).signal ≠ 1 →
      (determineRealTimeSignal maTwo df none).stype = SigType.WAIT) := by
  by_cases hE : df.isEmpty
  · have hnil : df = [] := List.isEmpty_iff.mp hE
    subst hnil
    constructor
    · constructor
      · intro h
        simp [determineRealTimeSignal] at h
      · rintro ⟨hb, -⟩
        exact absurd hb (by cases maTwo <;> decide)
    · intro hb
      exact absurd hb (by cases maTwo <;> decide)
  · by_cases hb : bullTriggerOf maTwo df = true
    · by_cases hs : (latestRowOf df).signal = 1
      · constructor
        · simp [determineRealTimeSignal, hE, hb, hs]
        · intro _ hs'
          exact absurd hs hs'
      · constructor
        · simp [determineRealTimeSignal, hE, hb, hs]
        · intro _ _
          simp [determineRealTimeSignal, hE, hb, hs]
    · have hb' : bullTriggerOf maTwo df = false := by
        revert hb
        cases bullTriggerOf maTwo df <;> simp
      constructor
      · constructor
        · intro h
          by_cases hbear : bearTriggerOf maTwo df = true
          · by_cases hs2 : (latestRowOf df).signal = -1
            · simp [determineRealTimeSignal, hE, hb', hbear, hs2] at h
            · simp [determineRealTimeSignal, hE, hb', hbear, hs2] at h
          · have hbear' : bearTriggerOf maTwo df = false := by
              revert hbear
              cases bearTriggerOf maTwo df <;> simp
            simp [determineRealTimeSignal, hE, hb', hbear'] at h
        · rintro ⟨hbt, -⟩
          exact absurd hbt hb
      · intro hbt
        exact absurd hbt hb

/-- Claim C2: `calculate_support_resistance` yields a NON-POSITIVE support
level on this input (the claim's premise), yet `calculate_risk_parameters`
does not substitute the ±5% band and return a normal result — it raises a
`TypeError`, because line 32 tuple-unpacks the returned dict into its `str`
keys and the validation then calls `np.isnan` on a string.  The fault
propagates to the caller. -/
theorem c2_band_substitution_unreachable :
    (calculate_support_resistance 10 histBadLow).support = PF.num (-5) ∧
    pfLe (calculate_support_resistance 10 histBadLow).support (PF.num 0) = true ∧
    calculate_risk_parameters ⟨1, none⟩ histBadLow 1 =
      Except.error PyErr.typeError := by
  refine ⟨by decide, by decide, ?_⟩
  rfl

/-- Counterexample to claim C1: at this concrete input (neutral bias, wide
bars), `calculate_risk_parameters` does not return RiskParameters satisfying
the risk bound — it returns no RiskParameters at all (`TypeError`). -/
theorem c1_counterexample_no_params_returned :
    ¬ ∃ rp : RiskParams,
      calculate_risk_parameters latestNeutral histWide 1 = Except.ok rp ∧
      |rp.entry_price - rp.stop_loss| ≤ rp.entry_price * (1/100) + 1/100 := by
  rintro ⟨rp, h, -⟩
  have he : calculate_risk_parameters latestNeutral histWide 1 =
      Except.error PyErr.typeError := rfl
  rw [he] at h
  exact Except.noConfusion h

/-- Claim C1 as amended: (1) as written, `calculate_risk_parameters` raises
`TypeError` on every input (the support/resistance dict is unpacked into its
keys, and `np.isnan` is applied to a string), so it never returns risk
parameters and no bound is established; (2) even under the intended by-key
reading of the dict, the bound fails for neutral bias: with close 100,
ATR 50 and riskPercent 1 the returned stop is 50 — the distance 50 far
exceeds `100 × 1/100 + ε`, because the neutral branch applies no risk cap
(risk_manager.py lines 68-82 cap only the bullish/bearish branches). -/
theorem c1_risk_bound_status :
    (∀ (latest : LatestRow) (hist : List Bar) (riskPct : Rat),
      calculate_risk_parameters latest hist riskPct =
        Except.error PyErr.typeError) ∧
    (calculate_risk_parameters_keyed latestNeutral histWide 1 =
        Except.ok ⟨100, 50, 150⟩ ∧
      100 * ((1 : Rat)/100) + 1/100 < |(100 : Rat) - 50|) := by
  refine ⟨fun latest hist riskPct => rfl, ?_, by decide⟩
  rfl

/-- Counterexample to claim C3: at this concrete input the bullish risk cap
would fire, but `calculate_risk_parameters` returns no RiskParameters with
the claimed 2:1 relation to the tightened stop — it raises `TypeError`. -/
theorem c3_counterexample_no_params_returned :
    ¬ ∃ rp : RiskParams,
      calculate_risk_parameters latestCap histCap 1 = Except.ok rp ∧
      |rp.take_profit - rp.entry_price| = 2 * |rp.entry_price - rp.stop_loss| := by
  rintro ⟨rp, h, -⟩
  have he : calculate_risk_parameters latestCap histCap 1 =
      Except.error PyErr.typeError := rfl
  rw [he] at h
  exact Except.noConfusion h

/-- Claim C3 as amended: under the intended by-key reading of the
support/resistance dict, when the bullish cap fires
(`entry − candidateStop > entry × riskPercent/100`) the stop is tightened to
exactly `maxRisk` below entry, but take-profit is NOT recomputed from the
tightened stop: it keeps the 2:1 target of the ORIGINAL candidate stop
(lines 79-80 reassign only `stop_loss`). -/
theorem c3_cap_keeps_original_take_profit
    (latest : LatestRow) (hist : List Bar) (riskPct : Rat) (s a : Rat)
    (hscore : pfLt (PF.num (3/5))
      (latest.composite_score.getD (PF.num (1/2))) = true)
    (hsup : (calculate_support_resistance 10 hist).support = PF.num s)
    (hspos : 0 < s)
    (hatr : latestATRFrom latest.close hist = a)
    (hcap : latest.close * (riskPct / 100) <
      latest.close - candStopBull s latest.close a) :
    calculate_risk_parameters_keyed latest hist riskPct =
      Except.ok ⟨round2 latest.close,
        round2 (latest.close - latest.close * (riskPct / 100)),
        round2 (latest.close +
          (latest.close - candStopBull s latest.close a) * 2)⟩ := by
  have hval : ¬((PF.num s) = PF.nan ∨ pfLe (PF.num s) (PF.num 0) = true) := by
    rintro (h | h)
    · exact PF.noConfusion h
    · have : ¬ s ≤ 0 := not_le.mpr hspos
      simp [pfLe, this] at h
  simp only [calculate_risk_parameters_keyed, hatr, hsup, validateLevel_float,
    hval, if_false, pyValRat, riskCore, hscore, if_true]
  simp [hscore, hcap]

/-- Witness for C3's amended theorem at the concrete cap input: support 99,
ATR 2, candidate stop 98.01, risk 1.99 > maxRisk 1. -/
theorem c3_cap_keeps_original_take_profit_witness :
    (pfLt (PF.num (3/5))
      (latestCap.composite_score.getD (PF.num (1/2))) = true) ∧
    ((calculate_support_resistance 10 histCap).support = PF.num 99) ∧
    ((0 : Rat) < 99) ∧
    (latestATRFrom latestCap.close histCap = 2) ∧
    (latestCap.close * ((1 : Rat) / 100) <
      latestCap.close - candStopBull 99 latestCap.close 2) ∧
    calculate_risk_parameters_keyed latestCap histCap 1 =
      Except.ok ⟨round2 latestCap.close,
        round2 (latestCap.close - latestCap.close * (1 / 100)),
        round2 (latestCap.close +
          (latestCap.close - candStopBull 99 latestCap.close 2) * 2)⟩ :=
  ⟨by decide, by decide, by decide, by decide, by decide,
    c3_cap_keeps_original_take_profit latestCap histCap 1 99 2
      (by decide) (by decide) (by decide) (by decide) (by decide)⟩

theorem pfAdd_nan_right (x : PF) : pfAdd x PF.nan = PF.nan := by
  cases x <;> rfl

theorem pfSub_nan_right (x : PF) : pfSub x PF.nan = PF.nan := by
  unfold pfSub
  show pfAdd x PF.nan = PF.nan
  exact pfAdd_nan_right x

/-- Folding `pfMinSkip` from a finite seed over finite values yields the
minimum: a value in the seed-or-list, below the seed and every element. -/
theorem foldMin_spec (xs : List Rat) (acc : Rat) :
    ∃ m, (xs.map PF.num).foldl pfMinSkip (PF.num acc) = PF.num m ∧
      (m = acc ∨ m ∈ xs) ∧ m ≤ acc ∧ ∀ a ∈ xs, m ≤ a := by
  induction xs generalizing acc with
  | nil => exact ⟨acc, rfl, Or.inl rfl, le_refl acc, by simp⟩
  | cons x rest ih =>
      have hstep : pfMinSkip (PF.num acc) (PF.num x) =
          PF.num (if x < acc then x else acc) := by
        unfold pfMinSkip
        by_cases hc : x < acc
        · rw [if_pos hc]
          simp [pfLt, hc]
        · rw [if_neg hc]
          simp [pfLt, hc]
      rw [List.map_cons, List.foldl_cons, hstep]
      rcases ih (if x < acc then x else acc) with ⟨m, hm, hmem, hle, hall⟩
      refine ⟨m, hm, ?_, ?_, ?_⟩
      · rcases hmem with h | h
        · by_cases hc : x < acc
          · rw [if_pos hc] at h
            exact Or.inr (by simp [h])
          · rw [if_neg hc] at h
            exact Or.inl h
        · exact Or.inr (by simp [h])
      · by_cases hc : x < acc
        · rw [if_pos hc] at hle
          linarith
        · rw [if_neg hc] at hle
          exact hle
      · intro a ha
        rcases List.mem_cons.mp ha with h | h
        · subst h
          by_cases hc : a < acc
          · rw [if_pos hc] at hle
            exact hle
          · rw [if_neg hc] at hle
            linarith [not_lt.mp hc]
        · exact hall a h

/-- `Series.min()` over a nonempty finite column attains the minimum. -/
theorem seriesMin_spec (xs : List Rat) (hne : xs ≠ []) :
    ∃ m, seriesMin (xs.map PF.num) = PF.num m ∧ m ∈ xs ∧ ∀ a ∈ xs, m ≤ a := by
  cases xs with
  | nil => exact absurd rfl hne
  | cons x rest =>
      unfold seriesMin
      rw [List.map_cons, List.foldl_cons]
      have h0 : pfMinSkip PF.nan (PF.num x) = PF.num x := rfl
      rw [h0]
      rcases foldMin_spec rest x with ⟨m, hm, hmem, hle, hall⟩
      refine ⟨m, hm, ?_, ?_⟩
      · rcases hmem with h | h
        · exact by simp [h]
        · exact by simp [h]
      · intro a ha
        rcases List.mem_cons.mp ha with h | h
        · subst h
          exact hle
        · exact hall a h

/-- Folding `pfMaxSkip` from a finite seed: the maximum. -/
theorem foldMax_spec (xs : List Rat) (acc : Rat) :
    ∃ m, (xs.map PF.num).foldl pfMaxSkip (PF.num acc) = PF.num m ∧
      (m = acc ∨ m ∈ xs) ∧ acc ≤ m ∧ ∀ a ∈ xs, a ≤ m := by
  induction xs generalizing acc with
  | nil => exact ⟨acc, rfl, Or.inl rfl, le_refl acc, by simp⟩
  | cons x rest ih =>
      have hstep : pfMaxSkip (PF.num acc) (PF.num x) =
          PF.num (if acc < x then x else acc) := by
        unfold pfMaxSkip
        by_cases hc : acc < x
        · rw [if_pos hc]
          simp [pfLt, hc]
        · rw [if_neg hc]
          simp [pfLt, hc]
      rw [List.map_cons, List.foldl_cons, hstep]
      rcases ih (if acc < x then x else acc) with ⟨m, hm, hmem, hle, hall⟩
      refine ⟨m, hm, ?_, ?_, ?_⟩
      · rcases hmem with h | h
        · by_cases hc : acc < x
          · rw [if_pos hc] at h
            exact Or.inr (by simp [h])
          · rw [if_neg hc] at h
            exact Or.inl h
        · exact Or.inr (by simp [h])
      · by_cases hc : acc < x
        · rw [if_pos hc] at hle
          linarith
        · rw [if_neg hc] at hle
          exact hle
      · intro a ha
        rcases List.mem_cons.mp ha with h | h
        · subst h
          by_cases hc : acc < a
          · rw [if_pos hc] at hle
            exact hle
          · rw [if_neg hc] at hle
            linarith [not_lt.mp hc]
        · exact hall a h

/-- `Series.max()` over a nonempty finite column attains the maximum. -/
theorem seriesMax_spec (xs : List Rat) (hne : xs ≠ []) :
    ∃ m, seriesMax (xs.map PF.num) = PF.num m ∧ m ∈ xs ∧ ∀ a ∈ xs, a ≤ m := by
  cases xs with
  | nil => exact absurd rfl hne
  | cons x rest =>
      unfold seriesMax
      rw [List.map_cons, List.foldl_cons]
      have h0 : pfMaxSkip PF.nan (PF.num x) = PF.num x := rfl
      rw [h0]
      rcases foldMax_spec rest x with ⟨m, hm, hmem, hle, hall⟩
      refine ⟨m, hm, ?_, ?_⟩
      · rcases hmem with h | h
        · exact by simp [h]
        · exact by simp [h]
      · intro a ha
        rcases List.mem_cons.mp ha with h | h
        · subst h
          exact hle
        · exact hall a h

/-- Round-half-even moves a value by at most 1/2. -/
theorem roundHalfEven_err (y : Rat) : |(roundHalfEven y : Rat) - y| ≤ 1/2 := by
  unfold roundHalfEven
  have hfr0 : (0 : Rat) ≤ y - ⌊y⌋ := by
    have := Int.floor_le y
    linarith
  have hfr1 : y - ⌊y⌋ < 1 := by
    have := Int.lt_floor_add_one y
    linarith
  by_cases h1 : y - ⌊y⌋ < 1/2
  · rw [if_pos h1, abs_le]
    constructor <;> linarith
  · rw [if_neg h1]
    by_cases h2 : 1/2 < y - ⌊y⌋
    · rw [if_pos h2, abs_le]
      push_cast
      constructor <;> linarith
    · rw [if_neg h2]
      have heq : y - ⌊y⌋ = 1/2 := by linarith [not_lt.mp h1, not_lt.mp h2]
      by_cases h3 : (⌊y⌋ : Int) % 2 = 0
      · rw [if_pos h3, abs_le]
        constructor <;> linarith
      · rw [if_neg h3, abs_le]
        push_cast
        constructor <;> linarith

/-- Rounding to two decimals moves a price by at most 1/200. -/
theorem round2_err (x : Rat) : |round2 x - x| ≤ 1/200 := by
  unfold round2
  have h := roundHalfEven_err (x * 100)
  have hx : (roundHalfEven (x * 100) : Rat) / 100 - x =
      ((roundHalfEven (x * 100) : Rat) - x * 100) / 100 := by
    field_simp
    ring
  rw [hx, abs_div]
  have h100 : |(100 : Rat)| = 100 := by norm_num
  rw [h100]
  linarith [h]

theorem mem_of_getLastQ {α : Type} {l : List α} {a : α}
    (h : l.getLast? = some a) : a ∈ l := by
  induction l with
  | nil => simp at h
  | cons x t ih =>
      cases t with
      | nil =>
          simp at h
          simp [h]
      | cons y s =>
          rw [List.getLast?_cons_cons] at h
          exact List.mem_cons_of_mem x (ih h)

theorem getLastQ_drop {α : Type} (l : List α) (n : Nat) (h : n < l.length) :
    (l.drop n).getLast? = l.getLast? := by
  rw [List.getLast?_eq_getElem?, List.getLast?_eq_getElem?,
    List.getElem?_drop, List.length_drop]
  congr 1
  omega

theorem colAt_mapf {α : Type} (f : α → PF) (xs : List α) (i : Nat)
    (h : i < xs.length) : colAt (xs.map f) i = f xs[i] := by
  simp [colAt, List.getD_eq_getElem?_getD, List.getElem?_map,
    List.getElem?_eq_getElem h]

/-- Every cell of `shift(1)` over finite input cells is NaN or finite. -/
theorem shift1_entries (xs : List PF) (h : ∀ x ∈ xs, ∃ q, x = PF.num q) :
    ∀ y ∈ shift1 xs, y = PF.nan ∨ ∃ q, y = PF.num q := by
  intro y hy
  unfold shift1 at hy
  rcases mem_buildSeries hy with ⟨i, hi, hye⟩
  have hlen : (xs.take (i + 1)).length = i + 1 := by
    rw [List.length_take]
    omega
  simp only [hlen] at hye
  by_cases h2 : i + 1 < 2
  · left
    rw [hye, if_pos h2]
  · right
    rw [hye, if_neg h2]
    have e2 : i + 1 - 2 = i - 1 := by omega
    rw [e2, colAt_take _ _ _ (by omega)]
    unfold colAt
    rw [List.getD_eq_getElem?_getD, List.getElem?_eq_getElem (by omega),
      Option.getD_some]
    exact h _ (List.getElem_mem (by omega))

theorem pfMaxSkip_nonneg (x y : PF) (hx : ∃ a, x = PF.num a ∧ 0 ≤ a)
    (hy : y = PF.nan ∨ ∃ b, y = PF.num b) :
    ∃ c, pfMaxSkip x y = PF.num c ∧ 0 ≤ c := by
  rcases hx with ⟨a, hxa, ha⟩
  subst hxa
  rcases hy with h | ⟨b, hb⟩
  · subst h
    exact ⟨a, rfl, ha⟩
  · subst hb
    have hred : pfMaxSkip (PF.num a) (PF.num b) =
        if pfLt (PF.num a) (PF.num b) = true then PF.num b else PF.num a := rfl
    rw [hred]
    by_cases hc : pfLt (PF.num a) (PF.num b) = true
    · rw [if_pos hc]
      simp only [pfLt, decide_eq_true_eq] at hc
      exact ⟨b, rfl, by linarith⟩
    · rw [if_neg hc]
      exact ⟨a, rfl, ha⟩

/-- One true-range cell is a non-negative number whenever the bar has
`low ≤ high` and the shifted close is NaN or finite. -/
theorem trCell_nonneg (H L : Rat) (c : PF) (hHL : L ≤ H)
    (hc : c = PF.nan ∨ ∃ q, c = PF.num q) :
    ∃ t, pfMaxSkip (pfMaxSkip (pfSub (PF.num H) (PF.num L))
        (pfAbs (pfSub (PF.num H) c))) (pfAbs (pfSub (PF.num L) c)) =
      PF.num t ∧ 0 ≤ t := by
  rcases hc with rfl | ⟨q, rfl⟩
  · refine ⟨H + -L, ?_, by linarith⟩
    rfl
  · have h0 : pfSub (PF.num H) (PF.num L) = PF.num (H + -L) := rfl
    have h1 : pfAbs (pfSub (PF.num H) (PF.num q)) = PF.num |H + -q| := rfl
    have h2 : pfAbs (pfSub (PF.num L) (PF.num q)) = PF.num |L + -q| := rfl
    rw [h0, h1, h2]
    rcases pfMaxSkip_nonneg _ _ ⟨H + -L, rfl, by linarith⟩
        (Or.inr ⟨_, rfl⟩) with ⟨c1, hc1, hc1n⟩
    rw [hc1]
    exact pfMaxSkip_nonneg _ _ ⟨c1, rfl, hc1n⟩ (Or.inr ⟨_, rfl⟩)

/-- Every true-range cell is a non-negative number when each bar has
`low ≤ high`. -/
theorem trueRangeCol_entries (df : List Bar)
    (hw : ∀ b ∈ df, b.low ≤ b.high) :
    ∀ x ∈ trueRangeCol df, ∃ t, x = PF.num t ∧ 0 ≤ t := by
  intro x hx
  simp only [trueRangeCol] at hx
  rcases List.mem_iff_getElem.mp hx with ⟨i, hilen, hxi⟩
  have hn : i < df.length := by
    simp only [List.length_zipWith, List.length_map] at hilen
    omega
  simp only [List.getElem_zipWith, List.getElem_map] at hxi
  have hhl := hw df[i] (List.getElem_mem hn)
  rw [← hxi]
  exact trCell_nonneg df[i].high df[i].low _ hhl
    (shift1_entries (df.map (fun b => PF.num b.close))
      (by
        intro z hz
        rcases List.mem_map.mp hz with ⟨b, hb, rfl⟩
        exact ⟨_, rfl⟩)
      _
      (List.getElem_mem (l := shift1 (df.map (fun b => PF.num b.close)))
        (n := i) (by
        unfold shift1
        rw [buildSeries_length, List.length_map]
        omega)))

/-- A rolling mean (window ≥ 1) of non-negative cells is NaN or
non-negative. -/
theorem rollingMean_nonneg (w : Nat) (hw1 : 1 ≤ w) (xs : List PF)
    (h : ∀ x ∈ xs, ∃ a, x = PF.num a ∧ 0 ≤ a) :
    ∀ y ∈ rollingMean w xs, y = PF.nan ∨ ∃ a, y = PF.num a ∧ 0 ≤ a := by
  intro y hy
  rcases mem_buildSeries hy with ⟨i, hi, hye⟩
  by_cases hfull : (xs.take (i + 1)).length < w
  · left
    rw [hye, if_pos hfull]
  · right
    rcases pfFold_num_ge ((xs.take (i + 1)).drop ((xs.take (i + 1)).length - w)) 0
        (fun x hx => h x (List.mem_of_mem_take (List.mem_of_mem_drop hx))) with
      ⟨s, hs, h0s⟩
    rw [hye, if_neg hfull]
    unfold pfSum
    rw [hs]
    have hwpos : (0 : Rat) < w := by exact_mod_cast hw1
    refine ⟨s / w, ?_, div_nonneg h0s (le_of_lt hwpos)⟩
    simp [pfDiv, ne_of_gt hwpos]

/-- The ATR value used by the risk engine is non-negative on well-formed
bars with a positive reference price. -/
theorem latestATRFrom_nonneg (current : Rat) (hist : List Bar)
    (hw : ∀ b ∈ hist, b.low ≤ b.high) (hc : 0 ≤ current) :
    0 ≤ latestATRFrom current hist := by
  unfold latestATRFrom
  cases hh : (calculate_atr 14 hist).getLast? with
  | none =>
      simp only [hh]
      nlinarith
  | some x =>
      cases x with
      | nan => simp only [hh]; nlinarith
      | inf s => simp only [hh]; nlinarith
      | num q =>
          simp only [hh]
          have hmem : PF.num q ∈ calculate_atr 14 hist := mem_of_getLastQ hh
          unfold calculate_atr at hmem
          rcases rollingMean_nonneg 14 (by norm_num) _
              (trueRangeCol_entries hist hw) _ hmem with h | ⟨a, ha, han⟩
          · exact absurd h (by simp)
          · have : q = a := by
              injection ha
            rw [this]
            exact han

theorem round2_diff_bound (u v c : Rat) (h : |u - v| ≤ c) :
    |round2 u - round2 v| ≤ c + 1/100 := by
  have hu := round2_err u
  have hv := round2_err v
  have he : round2 u - round2 v =
      (round2 u - u) + (u - v) + (v - round2 v) := by ring
  rw [he]
  have h1 := abs_add ((round2 u - u) + (u - v)) (v - round2 v)
  have h2 := abs_add (round2 u - u) (u - v)
  have h3 : |v - round2 v| = |round2 v - v| := abs_sub_comm _ _
  rw [h3] at h1
  linarith

theorem pfLt_bull_not_bear (x : PF) (h : pfLt (PF.num (3/5)) x = true) :
    pfLt x (PF.num (2/5)) = false := by
  cases x with
  | nan => rfl
  | inf s =>
      simp only [pfLt] at h
      simp [pfLt, h]
  | num q =>
      simp only [pfLt, decide_eq_true_eq] at h
      simp only [pfLt, decide_eq_false_iff_not]
      intro hq
      linarith

theorem pfLt_bear_not_bull (x : PF) (h : pfLt x (PF.num (2/5)) = true) :
    pfLt (PF.num (3/5)) x = false := by
  cases x with
  | nan => simp [pfLt] at h
  | inf s =>
      simp only [pfLt, Bool.not_eq_true'] at h
      simp [pfLt, h]
  | num q =>
      simp only [pfLt, decide_eq_true_eq] at h
      simp only [pfLt, decide_eq_false_iff_not]
      intro hq
      linarith

/-- Under the intended by-key reading of the support/resistance dict, the
risk cap of risk_manager.py lines 79-82 does enforce the budget on the two
branches it covers: for every well-formed bar history whose last close is
the reference price, a positive risk percentage and a decisive bias
(bullish or bearish composite score), the keyed model returns parameters
with `|entry − stop| ≤ close · riskPct/100` up to the 2-decimal rounding
epsilon.  Together with `c1_risk_bound_status` this isolates the neutral
branch (and the unpack fault) as the only violations of claim C1. -/
theorem riskKeyed_bias_risk_bound (latest : LatestRow) (hist : List Bar)
    (riskPct : Rat)
    (hw : ∀ b ∈ hist, 0 < b.low ∧ b.low ≤ b.close ∧ b.close ≤ b.high)
    (hlast : ∃ b, hist.getLast? = some b ∧ b.close = latest.close)
    (hpct : 0 < riskPct)
    (hbias : pfLt (PF.num (3/5))
        (latest.composite_score.getD (PF.num (1/2))) = true ∨
      pfLt (latest.composite_score.getD (PF.num (1/2)))
        (PF.num (2/5)) = true) :
    ∃ rp, calculate_risk_parameters_keyed latest hist riskPct =
        Except.ok rp ∧
      |rp.entry_price - rp.stop_loss| ≤
        latest.close * (riskPct / 100) + 1/100 := by
  obtain ⟨blast, hlastq, hbc⟩ := hlast
  have hne : hist ≠ [] := by
    intro h
    rw [h] at hlastq
    exact Option.noConfusion hlastq
  have hlen0 : 0 < hist.length := List.length_pos.mpr hne
  have hrecl : 0 < (hist.drop (hist.length - 10)).length := by
    rw [List.length_drop]
    omega
  have hrecne : hist.drop (hist.length - 10) ≠ [] := by
    intro h
    rw [h] at hrecl
    exact absurd hrecl (by simp)
  have hwb := hw blast (mem_of_getLastQ hlastq)
  have hcur : 0 < latest.close := by
    rw [← hbc]
    linarith [hwb.1, hwb.2.1]
  have hblastrec : blast ∈ hist.drop (hist.length - 10) :=
    mem_of_getLastQ (by
      rw [getLastQ_drop _ _ (by omega)]
      exact hlastq)
  -- support
  rcases seriesMin_spec ((hist.drop (hist.length - 10)).map (fun b => b.low))
      (by
        intro h
        exact hrecne (List.map_eq_nil.mp h)) with ⟨s, hsmin_eq, hsmem, hsall⟩
  have hmmS : List.map PF.num
      ((hist.drop (hist.length - 10)).map (fun b => b.low)) =
      (hist.drop (hist.length - 10)).map (fun b => PF.num b.low) := by
    rw [List.map_map]
    rfl
  have hsup : (calculate_support_resistance 10 hist).support = PF.num s := by
    show seriesMin
      ((hist.drop (hist.length - 10)).map (fun b => PF.num b.low)) = PF.num s
    rw [← hmmS]
    exact hsmin_eq
  have hspos : 0 < s := by
    rcases List.mem_map.mp hsmem with ⟨b0, hb0mem, hb0e⟩
    have := (hw b0 (List.mem_of_mem_drop hb0mem)).1
    rw [← hb0e]
    exact this
  have hscur : s ≤ latest.close := by
    have hsl := hsall blast.low (List.mem_map.mpr ⟨blast, hblastrec, rfl⟩)
    rw [← hbc]
    linarith [hwb.2.1]
  -- resistance
  rcases seriesMax_spec ((hist.drop (hist.length - 10)).map (fun b => b.high))
      (by
        intro h
        exact hrecne (List.map_eq_nil.mp h)) with ⟨r, hrmax_eq, hrmem, hrall⟩
  have hmmR : List.map PF.num
      ((hist.drop (hist.length - 10)).map (fun b => b.high)) =
      (hist.drop (hist.length - 10)).map (fun b => PF.num b.high) := by
    rw [List.map_map]
    rfl
  have hres : (calculate_support_resistance 10 hist).resistance =
      PF.num r := by
    show seriesMax
      ((hist.drop (hist.length - 10)).map (fun b => PF.num b.high)) = PF.num r
    rw [← hmmR]
    exact hrmax_eq
  have hcurr : latest.close ≤ r := by
    have hrh := hrall blast.high (List.mem_map.mpr ⟨blast, hblastrec, rfl⟩)
    rw [← hbc]
    linarith [hwb.2.2]
  have hrpos : 0 < r := lt_of_lt_of_le hcur hcurr
  -- ATR
  obtain ⟨a, hatr⟩ : ∃ a, latestATRFrom latest.close hist = a := ⟨_, rfl⟩
  have ha : 0 ≤ a := by
    rw [← hatr]
    exact latestATRFrom_nonneg latest.close hist
      (fun b hb => by linarith [(hw b hb).2.1, (hw b hb).2.2]) hcur.le
  -- validation passes on both levels
  have hvalS : ¬(PF.num s = PF.nan ∨ pfLe (PF.num s) (PF.num 0) = true) := by
    rintro (h | h)
    · exact PF.noConfusion h
    · have : ¬ s ≤ 0 := not_le.mpr hspos
      simp [pfLe, this] at h
  have hvalR : ¬(PF.num r = PF.nan ∨ pfLe (PF.num r) (PF.num 0) = true) := by
    rintro (h | h)
    · exact PF.noConfusion h
    · have : ¬ r ≤ 0 := not_le.mpr hrpos
      simp [pfLe, this] at h
  have hmr0 : 0 ≤ latest.close * (riskPct / 100) :=
    mul_nonneg hcur.le (div_nonneg hpct.le (by norm_num))
  obtain ⟨sc, hsc⟩ : ∃ sc, latest.composite_score.getD (PF.num (1/2)) = sc :=
    ⟨_, rfl⟩
  rw [hsc] at hbias
  rcases hbias with hB | hBe
  · -- bullish bias
    have hnotBe := pfLt_bull_not_bear _ hB
    have hstle : candStopBull s latest.close a ≤ latest.close := by
      unfold candStopBull
      apply max_le
      · nlinarith
      · linarith
    by_cases hcap : latest.close * (riskPct / 100) <
        latest.close - candStopBull s latest.close a
    · refine ⟨⟨round2 latest.close,
        round2 (latest.close - latest.close * (riskPct / 100)),
        round2 (latest.close +
          (latest.close - candStopBull s latest.close a) * 2)⟩, ?_, ?_⟩
      · simp only [calculate_risk_parameters_keyed, hatr, hsup, hres,
          validateLevel_float, hvalS, hvalR, if_false, pyValRat, riskCore,
          hsc]
        simp [hB, hcap]
      · apply round2_diff_bound
        have he : latest.close -
            (latest.close - latest.close * (riskPct / 100)) =
            latest.close * (riskPct / 100) := by ring
        rw [he, abs_of_nonneg hmr0]
    · refine ⟨⟨round2 latest.close,
        round2 (candStopBull s latest.close a),
        round2 (latest.close +
          (latest.close - candStopBull s latest.close a) * 2)⟩, ?_, ?_⟩
      · simp only [calculate_risk_parameters_keyed, hatr, hsup, hres,
          validateLevel_float, hvalS, hvalR, if_false, pyValRat, riskCore,
          hsc]
        simp [hB, hnotBe, hcap]
      · apply round2_diff_bound
        rw [abs_of_nonneg (by linarith)]
        linarith [not_lt.mp hcap]
  · -- bearish bias
    have hnotB := pfLt_bear_not_bull _ hBe
    have hstge : latest.close ≤ candStopBear r latest.close a := by
      unfold candStopBear
      apply le_min
      · nlinarith
      · linarith
    by_cases hcap : latest.close * (riskPct / 100) <
        candStopBear r latest.close a - latest.close
    · refine ⟨⟨round2 latest.close,
        round2 (latest.close + latest.close * (riskPct / 100)),
        round2 (latest.close -
          (candStopBear r latest.close a - latest.close) * 2)⟩, ?_, ?_⟩
      · simp only [calculate_risk_parameters_keyed, hatr, hsup, hres,
          validateLevel_float, hvalS, hvalR, if_false, pyValRat, riskCore,
          hsc]
        simp [hBe, hnotB, hcap]
      · apply round2_diff_bound
        have he : latest.close -
            (latest.close + latest.close * (riskPct / 100)) =
            -(latest.close * (riskPct / 100)) := by ring
        rw [he, abs_neg, abs_of_nonneg hmr0]
    · refine ⟨⟨round2 latest.close,
        round2 (candStopBear r latest.close a),
        round2 (latest.close -
          (candStopBear r latest.close a - latest.close) * 2)⟩, ?_, ?_⟩
      · simp only [calculate_risk_parameters_keyed, hatr, hsup, hres,
          validateLevel_float, hvalS, hvalR, if_false, pyValRat, riskCore,
          hsc]
        simp [hBe, hnotB, hcap]
      · apply round2_diff_bound
        have he : latest.close - candStopBear r latest.close a =
            -(candStopBear r latest.close a - latest.close) := by ring
        rw [he, abs_neg, abs_of_nonneg (by linarith)]
        linarith [not_lt.mp hcap]

/-- `calculate_risk_parameters` raises `TypeError` on every input: the
support/resistance dict is tuple-unpacked into its `str` keys and
`np.isnan` is applied to a string (risk_manager.py lines 32-35). -/
theorem calculate_risk_parameters_always_error (latest : LatestRow)
    (hist : List Bar) (riskPct : Rat) :
    calculate_risk_parameters latest hist riskPct =
      Except.error PyErr.typeError := rfl

/-- Claim C9: for every ticker evaluation, a failed pipeline step never
propagates out of `analyze_stock`: a fetch exception, a `None`/empty fetch
result, and an exception in a later step (in the current code the
risk-parameter step raises `TypeError` on every input, see
`calculate_risk_parameters_always_error`) are all caught by the
surrounding `try`/`except` and turned into `None` — so `analyze_stock`
returns `None` on every input instead of raising. -/
theorem c9_failed_evaluation_returns_none (sqrtF : Rat → Rat)
    (s : IndicatorSettings) (fetched : Except PyErr (Option (List Bar)))
    (pos : Option PosType) :
    analyze_stock sqrtF s fetched pos = none := by
  unfold analyze_stock
  match fetched with
  | Except.error e => rfl
  | Except.ok none => rfl
  | Except.ok (some bars) =>
      by_cases hb : bars.isEmpty
      · simp [hb]
      · simp [hb, calculate_risk_parameters_always_error]

/-- Claim C6: in the vote run, at row 9 exactly ONE of the four
per-indicator predicates is +1 (the MACD/signal crossover; the MA
crossover, RSI re-cross and Bollinger re-cross are all 0), yet the combined
discrete signal is +1, not 0: the positive count reaches 2 because the
column filter `endswith('_signal')` also matches the `MACD_signal` EMA
column, whose value at row 9 is positive and votes by its sign
(signal_generator.py lines 73-81). -/
theorem c6_macd_signal_line_votes :
    sigVote.macdCross.getD 9 0 = 1 ∧
    (sigVote.maCross.getD []).getD 9 0 = 0 ∧
    sigVote.rsiSignalCol.getD 9 0 = 0 ∧
    sigVote.bbSignalCol.getD 9 0 = 0 ∧
    pfLt (PF.num 0)
      (colAt (calculate_indicators sqrt0 pVote closesVote).macdSignalLine 9) =
      true ∧
    sigVote.signal.getD 9 0 = 1 := by
  decide

end MainTheorems

end AHT
